import Mathlib

/-!
Verification of the rulesync configuration transpiler.

This file gives a shallow embedding of the frontmatter codec, the
Antigravity rule/command adapters, the Copilot hooks and subagent
adapters, and the OpenCode MCP and subagent adapters, translated from
the TypeScript sources, and proves properties of them.
-/

namespace Rulesync

/-- A JSON/YAML-like value as handled by the frontmatter utilities.
`vundef` models the JavaScript `undefined`, `vnull` models `null`. -/
inductive Value where
  | vnull : Value
  | vundef : Value
  | vbool (b : Bool) : Value
  | vnum (n : Int) : Value
  | vstr (s : String) : Value
  | varr (items : List Value) : Value
  | vobj (fields : List (String × Value)) : Value

mutual

/-- Embeds `deepRemoveNullishValue` from `src/utils/frontmatter.ts`:
`null`/`undefined` map to `none` (removed), arrays and plain objects are
cleaned recursively (dropping entries that clean to nothing), all other
values pass through. -/
def deepRemoveNullishValue : Value → Option Value
  | .vnull => none
  | .vundef => none
  | .vbool b => some (.vbool b)
  | .vnum n => some (.vnum n)
  | .vstr s => some (.vstr s)
  | .varr items => some (.varr (deepRemoveNullishList items))
  | .vobj fields => some (.vobj (deepRemoveNullishFields fields))

/-- Cleaning of an array: `value.map(deepRemoveNullishValue).filter(≠ undefined)`. -/
def deepRemoveNullishList : List Value → List Value
  | [] => []
  | x :: xs =>
    match deepRemoveNullishValue x with
    | none => deepRemoveNullishList xs
    | some y => y :: deepRemoveNullishList xs

/-- Cleaning of the entries of a plain object: keys whose value cleans to
nothing are dropped, the rest keep their cleaned value. -/
def deepRemoveNullishFields : List (String × Value) → List (String × Value)
  | [] => []
  | (k, v) :: fs =>
    match deepRemoveNullishValue v with
    | none => deepRemoveNullishFields fs
    | some y => (k, y) :: deepRemoveNullishFields fs

end

/-- Embeds `deepRemoveNullishObject` from `src/utils/frontmatter.ts`:
top-level cleaning of a metadata map. -/
def deepRemoveNullishObject (obj : List (String × Value)) : List (String × Value) :=
  deepRemoveNullishFields obj

/-- A JavaScript `Error` value: a message plus an optional `cause`. -/
inductive JsError where
  | mk (message : String) (cause : Option JsError) : JsError

def JsError.message : JsError → String
  | .mk m _ => m

def JsError.cause : JsError → Option JsError
  | .mk _ c => c

/-- The `gray-matter` library interface used by `src/utils/frontmatter.ts`,
abstracted over the document content type `α`: `run` models calling
`matter(content)` (which either throws or yields `{data, content}`), and
`stringifyDoc` models `matter.stringify(body, metadata)`. The library is
third-party code, so it is kept opaque here; `MatterRoundTrips` below
states its documented round-trip contract. -/
structure MatterCodec (α : Type) where
  run : α → Except JsError (List (String × Value) × String)
  stringifyDoc : String → List (String × Value) → α

/-- The documented contract of `gray-matter`: stringifying a body with a
metadata map and parsing the result recovers the metadata exactly and the
body up to surrounding whitespace. -/
def MatterRoundTrips {α : Type} (codec : MatterCodec α) : Prop :=
  ∀ (body : String) (metadata : List (String × Value)),
    ∃ body', codec.run (codec.stringifyDoc body metadata) = .ok (metadata, body') ∧
      body'.trim = body.trim

/-- Embeds `stringifyFrontmatter` from `src/utils/frontmatter.ts`: strip
nullish values, then serialize with `matter.stringify`. -/
def stringifyFrontmatter {α : Type} (codec : MatterCodec α)
    (body : String) (frontmatter : List (String × Value)) : α :=
  codec.stringifyDoc body (deepRemoveNullishObject frontmatter)

/-- Embeds `parseFrontmatter` from `src/utils/frontmatter.ts`: run
`matter(content)`; on failure, wrap the error with the source path when one
was supplied and rethrow it unchanged otherwise; on success, strip nullish
values from the parsed metadata. -/
def parseFrontmatter {α : Type} (codec : MatterCodec α)
    (content : α) (filePath : Option String) :
    Except JsError (List (String × Value) × String) :=
  match codec.run content with
  | .error e =>
    match filePath with
    | some fp =>
      .error (.mk ("Failed to parse frontmatter in " ++ fp ++ ": " ++ e.message) (some e))
    | none => .error e
  | .ok (frontmatter, body) => .ok (deepRemoveNullishObject frontmatter, body)

/-- A trivially lawful instantiation of the codec, where a document is the
pair of its metadata and its body. -/
def pairCodec : MatterCodec (List (String × Value) × String) where
  run doc := .ok doc
  stringifyDoc body metadata := (metadata, body)

/-- A codec whose parser always fails, used to exercise the error path. -/
def failCodec (e : JsError) : MatterCodec Unit where
  run _ := .error e
  stringifyDoc _ _ := ()

/-- JavaScript string truthiness on an optional string: defined and non-empty. -/
def truthyStr (s : Option String) : Bool :=
  match s with
  | some str => str ≠ ""
  | none => false

/-- A `string | string[]` union value, as stored in the `antigravity.globs`
field of a rulesync rule's frontmatter. -/
inductive GlobsVal where
  | str (s : String) : GlobsVal
  | arr (xs : List String) : GlobsVal
deriving DecidableEq, Repr

/-- Embeds `parseGlobsString` from the Antigravity rule adapter: a falsy
value gives `[]`, an array passes through, a blank string gives `[]`, and
any other string is split on commas with each part trimmed. -/
def parseGlobsString (globs : Option GlobsVal) : List String :=
  match globs with
  | none => []
  | some (.str s) =>
    if s = "" then []
    else if s.trim = "" then []
    else (s.splitOn ",").map String.trim
  | some (.arr xs) => xs

/-- Embeds `stringifyGlobs` from the Antigravity rule adapter: an empty
list gives `undefined`, otherwise the globs are comma-joined. -/
def stringifyGlobs (globs : List String) : Option String :=
  if globs = [] then none else some (String.intercalate "," globs)

/-- The Antigravity rule frontmatter (`AntigravityRuleFrontmatterSchema`):
optional trigger, comma-joined globs string, and description. -/
structure AntigravityRuleFrontmatter where
  trigger : Option String
  globs : Option String
  description : Option String
deriving DecidableEq, Repr

/-- The `antigravity` section stored in a rulesync rule's frontmatter
(`StoredAntigravity`): like the Antigravity frontmatter but with globs as
`string | string[]`. -/
structure StoredAntigravity where
  trigger : Option String
  globs : Option GlobsVal
  description : Option String
deriving DecidableEq, Repr

/-- The fields of `RulesyncRuleFrontmatterSchema` consumed by the
Antigravity rule adapter. -/
structure RulesyncRuleFrontmatter where
  description : Option String
  globs : Option (List String)
  antigravity : Option StoredAntigravity
deriving DecidableEq, Repr

/-- Embeds `normalizeStoredAntigravity`: converts a stored `antigravity`
section into Antigravity frontmatter shape, comma-joining array globs. -/
def normalizeStoredAntigravity (stored : Option StoredAntigravity) :
    Option AntigravityRuleFrontmatter :=
  match stored with
  | none => none
  | some s =>
    some ⟨s.trigger,
      match s.globs with
      | some (.arr xs) => stringifyGlobs xs
      | some (.str str) => some str
      | none => none,
      s.description⟩

/-- The shared effective-globs expression of the glob and inference
strategies: the normalized section's globs when truthy (parsed from the
comma-joined string), otherwise the rulesync rule's glob array (or `[]`). -/
def effectiveGlobsArray (normalized : Option AntigravityRuleFrontmatter)
    (rsf : RulesyncRuleFrontmatter) : List String :=
  if truthyStr (normalized.bind (·.globs)) then
    parseGlobsString ((normalized.bind (·.globs)).map .str)
  else
    rsf.globs.getD []

/-- The strategy interface for converting rulesync frontmatter to
Antigravity frontmatter (`TriggerStrategy`, export direction omitted). -/
structure TriggerStrategy where
  canHandle : Option String → Bool
  generateFrontmatter : Option AntigravityRuleFrontmatter → RulesyncRuleFrontmatter →
    AntigravityRuleFrontmatter

/-- The base frontmatter a JavaScript spread of the normalized section
starts from: the section itself, or all-absent when it is `undefined`. -/
def spreadBase (normalized : Option AntigravityRuleFrontmatter) : AntigravityRuleFrontmatter :=
  normalized.getD ⟨none, none, none⟩

/-- Embeds `globStrategy`: handles trigger `"glob"`, emits trigger `"glob"`
with the effective globs comma-joined. -/
def globStrategy : TriggerStrategy where
  canHandle t := t == some "glob"
  generateFrontmatter normalized rsf :=
    { spreadBase normalized with
        trigger := some "glob"
        globs := stringifyGlobs (effectiveGlobsArray normalized rsf) }

/-- Embeds `manualStrategy`: handles trigger `"manual"`. -/
def manualStrategy : TriggerStrategy where
  canHandle t := t == some "manual"
  generateFrontmatter normalized _ :=
    { spreadBase normalized with trigger := some "manual" }

/-- Embeds `alwaysOnStrategy`: handles trigger `"always_on"`. -/
def alwaysOnStrategy : TriggerStrategy where
  canHandle t := t == some "always_on"
  generateFrontmatter normalized _ :=
    { spreadBase normalized with trigger := some "always_on" }

/-- Embeds `modelDecisionStrategy`: handles trigger `"model_decision"`,
taking the description from the rulesync frontmatter. -/
def modelDecisionStrategy : TriggerStrategy where
  canHandle t := t == some "model_decision"
  generateFrontmatter normalized rsf :=
    { spreadBase normalized with
        trigger := some "model_decision"
        description := rsf.description }

/-- Embeds `unknownStrategy`: handles any defined trigger, passing the
stored trigger string through. -/
def unknownStrategy : TriggerStrategy where
  canHandle t := t.isSome
  generateFrontmatter normalized _ :=
    { spreadBase normalized with
        trigger := some ((normalized.bind (·.trigger)).getD "manual") }

/-- Embeds `inferenceStrategy`: handles an undefined trigger; specific
(non-wildcard, non-empty) globs give trigger `"glob"` with comma-joined
globs, otherwise trigger `"always_on"`. -/
def inferenceStrategy : TriggerStrategy where
  canHandle t := t.isNone
  generateFrontmatter normalized rsf :=
    let effective := effectiveGlobsArray normalized rsf
    if effective.length > 0 ∧ ¬ effective.contains "**/*" ∧ ¬ effective.contains "*" then
      { spreadBase normalized with
          trigger := some "glob"
          globs := stringifyGlobs effective }
    else
      { spreadBase normalized with trigger := some "always_on" }

/-- Embeds `STRATEGIES`: the priority-ordered strategy list. -/
def STRATEGIES : List TriggerStrategy :=
  [globStrategy, manualStrategy, alwaysOnStrategy, modelDecisionStrategy,
   unknownStrategy, inferenceStrategy]

/-- Embeds the frontmatter computation of `AntigravityRule.fromRulesyncRule`:
normalize the stored section, dispatch on the stored trigger through
`STRATEGIES` first-match-wins, and apply the matching strategy (`none`
models the should-not-happen "No strategy found" throw). -/
def antigravityRuleFromRulesync (rsf : RulesyncRuleFrontmatter) :
    Option AntigravityRuleFrontmatter :=
  let storedAntigravity := rsf.antigravity
  let normalized := normalizeStoredAntigravity storedAntigravity
  let storedTrigger := storedAntigravity.bind (·.trigger)
  match STRATEGIES.find? (fun s => s.canHandle storedTrigger) with
  | none => none
  | some strategy => some (strategy.generateFrontmatter normalized rsf)

/-- A `string | string[]` union, as in the canonical MCP `command` field. -/
inductive StrOrArr where
  | str (s : String) : StrOrArr
  | arr (xs : List String) : StrOrArr
deriving DecidableEq, Repr

/-- A canonical MCP server entry (the fields consumed by the OpenCode MCP
adapter in `opencode-mcp.ts`). -/
structure McpServer where
  type : Option String
  command : Option StrOrArr
  args : Option (List String)
  url : Option String
  httpUrl : Option String
  env : Option (List (String × String))
  cwd : Option String
  headers : Option (List (String × String))
  disabled : Option Bool
  enabledTools : Option (List String)
  disabledTools : Option (List String)
deriving DecidableEq, Repr

/-- A canonical MCP server with every field absent, used as the base of
concrete examples. -/
def emptyMcpServer : McpServer :=
  ⟨none, none, none, none, none, none, none, none, none, none, none⟩

/-- An OpenCode-native MCP server (`OpencodeMcpServerSchema`): local
(merged command array) or remote. -/
inductive OpencodeMcpServer where
  | localServer (command : List String) (environment : Option (List (String × String)))
      (enabled : Bool) (cwd : Option String) : OpencodeMcpServer
  | remoteServer (url : String) (headers : Option (List (String × String)))
      (enabled : Bool) : OpencodeMcpServer
deriving DecidableEq, Repr

/-- JavaScript object assignment `obj[k] = v`: replaces the value in place
when the key exists, appends the pair otherwise. -/
def objSet {α : Type} (l : List (String × α)) (k : String) (v : α) : List (String × α) :=
  if l.any (fun kv => kv.1 = k) then
    l.map (fun kv => if kv.1 = k then (k, v) else kv)
  else l ++ [(k, v)]

/-- JavaScript `s.startsWith(p)` (on characters). -/
def jsStartsWith (s p : String) : Bool :=
  p.data.isPrefixOf s.data

/-- JavaScript `s.slice(n)` (drop the first `n` characters). -/
def jsDropChars (s : String) (n : Nat) : String :=
  ⟨s.data.drop n⟩

/-- Embeds `convertToOpencodeFormat` from `opencode-mcp.ts`: converts
canonical servers to OpenCode shape (`stdio → local` with merged command
array, `sse | http | truthy url → remote`, `disabled` inverted to
`enabled`) while collecting per-server enabled/disabled tools into one
tool-wide boolean map keyed `"<serverName>_<toolName>"`. A falsy canonical
command (absent or the empty string) contributes nothing to the merged
array, per the `if (serverConfig.command)` guard. -/
def convertToOpencodeFormat (mcpServers : List (String × McpServer)) :
    List (String × OpencodeMcpServer) × List (String × Bool) :=
  mcpServers.foldl
    (fun acc entry =>
      let serverName := entry.1
      let c := entry.2
      let isRemote := c.type == some "sse" || c.type == some "http" || truthyStr c.url
      let tools1 := (c.enabledTools.getD []).foldl
        (fun tl t => objSet tl (serverName ++ "_" ++ t) true) acc.2
      let tools2 := (c.disabledTools.getD []).foldl
        (fun tl t => objSet tl (serverName ++ "_" ++ t) false) tools1
      let enabled := match c.disabled with
        | some d => !d
        | none => true
      if isRemote then
        let url := match c.url with
          | some u => u
          | none => (c.httpUrl).getD ""
        (acc.1 ++ [(serverName, .remoteServer url c.headers enabled)], tools2)
      else
        let commandArray :=
          (match c.command with
            | some (.str s) => if s = "" then [] else [s]
            | some (.arr xs) => xs
            | none => []) ++ c.args.getD []
        let cwd := match c.cwd with
          | some s => if s = "" then none else some s
          | none => none
        (acc.1 ++ [(serverName, .localServer commandArray c.env enabled cwd)], tools2))
    ([], [])

/-- The per-entry conversion of `convertFromOpencodeFormat`: one
OpenCode-native server back to canonical shape (`local → stdio` splitting
the command array at its first element, `remote → sse`, `enabled` inverted
to `disabled`), recovering per-server tool lists from the tool-wide map by
server-name prefix; a falsy first command element (the `if (!command)`
check: an empty array or an empty-string head) is an error. -/
def convertOpencodeServerEntry (tools : Option (List (String × Bool)))
    (entry : String × OpencodeMcpServer) : Except String (String × McpServer) :=
  let serverName := entry.1
  let pfx := serverName ++ "_"
  let relevant := (tools.getD []).filter (fun kv => jsStartsWith kv.1 pfx)
  let enabledTools := (relevant.filter (·.2)).map (fun kv => jsDropChars kv.1 pfx.length)
  let disabledTools := (relevant.filter (!·.2)).map (fun kv => jsDropChars kv.1 pfx.length)
  let enabledToolsOpt := if enabledTools.length > 0 then some enabledTools else none
  let disabledToolsOpt := if disabledTools.length > 0 then some disabledTools else none
  match entry.2 with
  | .remoteServer url headers enabled =>
    .ok (serverName,
      { emptyMcpServer with
          type := some "sse"
          url := some url
          disabled := if enabled = false then some true else none
          headers := headers
          enabledTools := enabledToolsOpt
          disabledTools := disabledToolsOpt })
  | .localServer command environment enabled cwd =>
    match command with
    | [] => .error ("Server \"" ++ serverName ++ "\" has an empty command array")
    | cmd :: args =>
      if cmd = "" then
        .error ("Server \"" ++ serverName ++ "\" has an empty command array")
      else
      let cwdOut : Option String := match cwd with
        | some s => if s = "" then none else some s
        | none => none
      .ok (serverName,
        { emptyMcpServer with
            type := some "stdio"
            command := some (.str cmd)
            args := if args.length > 0 then some args else none
            disabled := if enabled = false then some true else none
            env := environment
            cwd := cwdOut
            enabledTools := enabledToolsOpt
            disabledTools := disabledToolsOpt })

/-- Embeds `convertFromOpencodeFormat` from `opencode-mcp.ts`: every
server is converted through `convertOpencodeServerEntry`, the first error
aborting the conversion. -/
def convertFromOpencodeFormat (opencodeMcp : List (String × OpencodeMcpServer))
    (tools : Option (List (String × Bool))) :
    Except String (List (String × McpServer)) :=
  match opencodeMcp with
  | [] => .ok []
  | entry :: rest =>
    match convertOpencodeServerEntry tools entry with
    | .error e => .error e
    | .ok kv =>
      match convertFromOpencodeFormat rest tools with
      | .error e => .error e
      | .ok kvs => .ok (kv :: kvs)

/-- Encoding of a string map as a JSON object value. -/
def encodeStrMap (m : List (String × String)) : Value :=
  .vobj (m.map fun kv => (kv.1, .vstr kv.2))

/-- Encoding of an OpenCode MCP server as a JSON value, following the
object literals of `convertToOpencodeFormat`. -/
def encodeOpencodeServer : OpencodeMcpServer → Value
  | .localServer command environment enabled cwd =>
    .vobj ([("type", .vstr "local"), ("command", .varr (command.map .vstr)),
        ("enabled", .vbool enabled)] ++
      (match environment with
        | some e => [("environment", encodeStrMap e)]
        | none => []) ++
      (match cwd with
        | some c => [("cwd", .vstr c)]
        | none => []))
  | .remoteServer url headers enabled =>
    .vobj ([("type", .vstr "remote"), ("url", .vstr url), ("enabled", .vbool enabled)] ++
      (match headers with
        | some h => [("headers", encodeStrMap h)]
        | none => []))

def encodeOpencodeMcp (mcp : List (String × OpencodeMcpServer)) : Value :=
  .vobj (mcp.map fun kv => (kv.1, encodeOpencodeServer kv.2))

def encodeToolsMap (tools : List (String × Bool)) : Value :=
  .vobj (tools.map fun kv => (kv.1, .vbool kv.2))

/-- Embeds the JSON rewrite of `OpencodeMcp.fromRulesyncMcp`: starting from
the pre-existing `opencode.json` top-level object, the `tools` key is
removed, the `mcp` key is set to the converted servers, and a `tools` key
is re-emitted only when the converted tool map is non-empty. -/
def opencodeMcpFromRulesync (existingJson : List (String × Value))
    (mcpServers : List (String × McpServer)) : List (String × Value) :=
  let converted := convertToOpencodeFormat mcpServers
  let jsonWithoutTools := existingJson.filter (fun kv => kv.1 ≠ "tools")
  let withMcp := objSet jsonWithoutTools "mcp" (encodeOpencodeMcp converted.1)
  if converted.2.length > 0 then objSet withMcp "tools" (encodeToolsMap converted.2)
  else withMcp

/-- Embeds `OpencodeMcp.isDeletable`, which always returns `false` because
`opencode.json` may contain other settings. -/
def opencodeMcpIsDeletable : Bool := false

/-- The character class `[a-zA-Z0-9-_]` of the trigger sanitizer, which is
also the `[\w-]` class of the body-trigger regex. -/
def isWordDashChar (c : Char) : Bool :=
  c.isAlphanum || c = '_' || c = '-'

/-- ASCII model of the regex whitespace class `\s`. -/
def isJsWhitespace (c : Char) : Bool :=
  c = ' ' || c = '\t' || c = '\n' || c = '\r' || c = '\x0b' || c = '\x0c'

/-- Tries to match `trigger:\s*(\/[\w-]+)` at the start of the character
list, returning the captured group. -/
def matchTriggerAt (cs : List Char) : Option (List Char) :=
  if "trigger:".data.isPrefixOf cs then
    match (cs.drop "trigger:".data.length).dropWhile isJsWhitespace with
    | '/' :: more =>
      if (more.takeWhile isWordDashChar).length > 0 then
        some ('/' :: more.takeWhile isWordDashChar)
      else none
    | _ => none
  else none

/-- Leftmost match of the body-trigger regex. -/
def findTriggerMatch : List Char → Option (List Char)
  | [] => none
  | c :: cs =>
    match matchTriggerAt (c :: cs) with
    | some m => some m
    | none => findTriggerMatch cs

/-- Embeds the `rulesyncCommand.getBody().match(/trigger:\s*(\/[\w-]+)/)`
extraction (group 1 of the first match). -/
def bodyTriggerMatch (body : String) : Option String :=
  (findTriggerMatch body.data).map (fun cs => ⟨cs⟩)

/-- Node's `basename(p, ext)`: the part after the last `/`, with `ext`
removed when it is a proper suffix. -/
def nodeBasename (p : String) (ext : String) : String :=
  let base : String := ⟨(p.data.reverse.takeWhile (· ≠ '/')).reverse⟩
  if ext.data.isSuffixOf base.data ∧ base ≠ ext then
    ⟨base.data.take (base.data.length - ext.data.length)⟩
  else base

/-- JavaScript `a || b` on strings, where an absent or empty string falls
through to the fallback. -/
def jsOrStr (a : Option String) (b : String) : String :=
  match a with
  | some s => if s ≠ "" then s else b
  | none => b

/-- Looks a key up in a plain JSON object. -/
def objGet (fields : List (String × Value)) (k : String) : Option Value :=
  List.lookup k fields

/-- The fields of a rulesync command's frontmatter consumed by the
Antigravity command adapter: the required description plus the untyped
root-level `trigger` and `antigravity` keys (absent when not present). -/
structure RulesyncCommandFm where
  description : String
  trigger : Option Value
  antigravity : Option Value

/-- A rulesync command record as consumed by
`AntigravityCommand.fromRulesyncCommand`. -/
structure RulesyncCommandRecord where
  frontmatter : RulesyncCommandFm
  body : String
  relativeFilePath : String

/-- Embeds `AntigravityCommand.extractAntigravityConfig`: the `antigravity`
frontmatter key when it is a plain record. -/
def extractAntigravityConfig (rc : RulesyncCommandRecord) : Option (List (String × Value)) :=
  match rc.frontmatter.antigravity with
  | some (.vobj fields) => some fields
  | _ => none

/-- Embeds `AntigravityCommand.resolveTrigger`: explicit
`antigravity.trigger` string, then root-level `trigger` string, then the
regex-extracted trigger from the body, then `/` plus the filename without
its `.md` extension. -/
def resolveTrigger (rc : RulesyncCommandRecord)
    (antigravityConfig : Option (List (String × Value))) : String :=
  let antigravityTrigger : Option String :=
    match antigravityConfig with
    | some cfg =>
      match objGet cfg "trigger" with
      | some (.vstr s) => some s
      | _ => none
    | none => none
  let rootTrigger : Option String :=
    match rc.frontmatter.trigger with
    | some (.vstr s) => some s
    | _ => none
  let filenameTrigger := "/" ++ nodeBasename rc.relativeFilePath ".md"
  jsOrStr antigravityTrigger
    (jsOrStr rootTrigger (jsOrStr (bodyTriggerMatch rc.body) filenameTrigger))

/-- `\r?\n`. -/
def dropNewline : List Char → Option (List Char)
  | '\r' :: '\n' :: rest => some rest
  | '\n' :: rest => some rest
  | _ => none

/-- The closing delimiter `\r?\n---\r?\n` of a leading frontmatter block. -/
def matchFrontmatterClose (cs : List Char) : Option (List Char) :=
  (dropNewline cs).bind (fun r1 =>
    if ['-', '-', '-'].isPrefixOf r1 then dropNewline (r1.drop 3) else none)

/-- Lazy scan for the closing delimiter (leftmost position wins). -/
def scanFrontmatterClose : List Char → Option (List Char)
  | [] => none
  | c :: rest =>
    match matchFrontmatterClose (c :: rest) with
    | some r => some r
    | none => scanFrontmatterClose rest

/-- Embeds the body cleanup
`body.replace(/^---\r?\n[\s\S]*?\r?\n---\r?\n/, "")` of
`AntigravityCommand.fromRulesyncCommand`. -/
def stripLeadingFrontmatterBlock (s : String) : String :=
  let matched : Option (List Char) :=
    if ['-', '-', '-'].isPrefixOf s.data then
      match dropNewline (s.data.drop 3) with
      | some afterOpen => scanFrontmatterClose afterOpen
      | none => none
    else none
  match matched with
  | some rest => ⟨rest⟩
  | none => s

/-- Embeds the trigger sanitization of
`AntigravityCommand.fromRulesyncCommand`: characters outside
`[a-zA-Z0-9-_]` become hyphens, then leading and trailing hyphen runs are
stripped. -/
def sanitizeTrigger (t : String) : String :=
  let mapped := t.data.map (fun c => if isWordDashChar c then c else '-')
  ⟨((mapped.dropWhile (· = '-')).reverse.dropWhile (· = '-')).reverse⟩

/-- The Antigravity command frontmatter
(`AntigravityCommandFrontmatterSchema`). -/
structure AntigravityCommandFrontmatter where
  description : String
  trigger : Option String
  turbo : Option Bool
deriving DecidableEq, Repr

/-- The observable output of `AntigravityCommand.fromRulesyncCommand`. -/
structure AntigravityCommandResult where
  frontmatter : AntigravityCommandFrontmatter
  body : String
  relativeFilePath : String
deriving DecidableEq, Repr

/-- Embeds `AntigravityCommand.fromRulesyncCommand`: resolve and sanitize
the trigger, fail when sanitization empties it, rename the output file to
`<slug>.md`, and wrap the cleaned body with the workflow header and the
turbo directive. -/
def antigravityCommandFromRulesync (rc : RulesyncCommandRecord) :
    Except String AntigravityCommandResult :=
  let antigravityConfig := extractAntigravityConfig rc
  let trigger := resolveTrigger rc antigravityConfig
  let turbo : Bool :=
    match antigravityConfig with
    | some cfg =>
      match objGet cfg "turbo" with
      | some (.vbool b) => b
      | _ => true
    | none => true
  let cleanedBody := (stripLeadingFrontmatterBlock rc.body).trim
  let sanitizedTrigger := sanitizeTrigger trigger
  if sanitizedTrigger = "" then
    .error ("Invalid trigger: sanitization resulted in empty string from \"" ++ trigger ++ "\"")
  else
    let validFilename := sanitizedTrigger ++ ".md"
    let turboDirective := if turbo then "\n\n// turbo" else ""
    let body := "# Workflow: " ++ trigger ++ "\n\n" ++ cleanedBody ++ turboDirective
    .ok ⟨⟨rc.frontmatter.description, some trigger, some turbo⟩, body, validFilename⟩

/-- A canonical hook definition. The canonical schema fields are modelled
from the spec (`HookDefinitionSchema` lives in `src/types/hooks.ts`, which
is not among the provided sources): `type`, `command`, `prompt`,
`matcher`, `timeout`, `loop_limit`; unknown keys are kept in `extra`. -/
structure HookDefinition where
  type : Option String
  command : Option String
  prompt : Option String
  matcher : Option String
  timeout : Option Int
  loop_limit : Option Int
  extra : List (String × Value)

/-- A Copilot hook entry (`CopilotHookEntrySchema`). -/
structure CopilotHookEntry where
  type : String
  bash : Option String
  powershell : Option String
  timeoutSec : Option Int
  extra : List (String × Value)

/-- A canonical hooks configuration: the shared event map plus the
optional `copilot.hooks` per-tool override map. -/
structure HooksConfig where
  hooks : List (String × List HookDefinition)
  copilotHooks : Option (List (String × List HookDefinition))

/-- Modelled from the spec: `COPILOT_HOOK_EVENTS` lives in
`src/types/hooks.ts`, which is not among the provided sources; the
supported-events table of the documentation marks exactly these canonical
events as supported by Copilot. -/
def COPILOT_HOOK_EVENTS : List String :=
  ["sessionStart", "sessionEnd", "preToolUse", "postToolUse", "afterSubmitPrompt", "afterError"]

/-- Modelled from the spec: `CANONICAL_TO_COPILOT_EVENT_NAMES` lives in
`src/types/hooks.ts`, which is not among the provided sources; the
documentation maps `afterSubmitPrompt` to `userPromptSubmitted` and
`afterError` to `errorOccurred`, all other Copilot events keeping their
canonical names. -/
def CANONICAL_TO_COPILOT_EVENT_NAMES : List (String × String) :=
  [("afterSubmitPrompt", "userPromptSubmitted"), ("afterError", "errorOccurred")]

/-- JavaScript object spread `{...a, ...b}`. -/
def jsSpreadMerge {α : Type} (a b : List (String × α)) : List (String × α) :=
  b.foldl (fun acc kv => objSet acc kv.1 kv.2) a

/-- The per-definition conversion of the loop body of
`canonicalToCopilotHooks`: definitions with a truthy matcher or a
non-command type are skipped; the command is emitted under `powershell` on
Windows and `bash` elsewhere, `timeout` becomes `timeoutSec`, and
non-schema keys pass through. -/
def convertCopilotHookEntry (isWindows : Bool) (d : HookDefinition) : Option CopilotHookEntry :=
  let hookType := d.type.getD "command"
  if truthyStr d.matcher then none
  else if hookType ≠ "command" then none
  else some
    { type := hookType
      bash := if isWindows then none else d.command
      powershell := if isWindows then d.command else none
      timeoutSec := d.timeout
      extra := d.extra }

/-- The `effectiveHooks` map of `canonicalToCopilotHooks`: shared hooks
filtered to Copilot-supported events, with `copilot.hooks` spread on top. -/
def effectiveCopilotHooks (config : HooksConfig) : List (String × List HookDefinition) :=
  let sharedConfigHooks := config.hooks.filter (fun e => COPILOT_HOOK_EVENTS.contains e.1)
  jsSpreadMerge sharedConfigHooks (config.copilotHooks.getD [])

/-- Embeds `canonicalToCopilotHooks` from `copilot-hooks.ts`: for each
effective event, translate the event name, convert the definitions, and
emit the event only when at least one definition survives. -/
def canonicalToCopilotHooks (isWindows : Bool) (config : HooksConfig) :
    List (String × List CopilotHookEntry) :=
  (effectiveCopilotHooks config).foldl
    (fun copilot ev =>
      let copilotEventName := (List.lookup ev.1 CANONICAL_TO_COPILOT_EVENT_NAMES).getD ev.1
      let entries := ev.2.filterMap (convertCopilotHookEntry isWindows)
      if entries.length > 0 then objSet copilot copilotEventName entries else copilot)
    []

/-- Embeds `REQUIRED_TOOL` of the Copilot subagent adapter. -/
def REQUIRED_TOOL : String := "agent/runSubagent"

/-- The `tools` field of a rulesync `copilot` section as seen through the
adapter's runtime guard: a string, an array of strings, or some other
value (which the guard treats as absent). -/
inductive ToolsField where
  | str (s : String) : ToolsField
  | arr (xs : List String) : ToolsField
  | other (v : Value) : ToolsField

/-- Embeds `normalizeTools`: a falsy value (absent or the empty string)
gives `[]`, a single string becomes a one-element list, an array passes
through. -/
def normalizeTools (tools : Option StrOrArr) : List String :=
  match tools with
  | none => []
  | some (.str s) => if s = "" then [] else [s]
  | some (.arr xs) => xs

/-- `Array.from(new Set(l))`: first-occurrence de-duplication. -/
def setDedup (seen : List String) : List String → List String
  | [] => []
  | x :: xs => if seen.contains x then setDedup seen xs else x :: setDedup (x :: seen) xs

/-- Embeds `ensureRequiredTool`: prepend `REQUIRED_TOOL` and de-duplicate
preserving first occurrences. -/
def ensureRequiredTool (tools : List String) : List String :=
  setDedup [] (REQUIRED_TOOL :: tools)

/-- The `copilot` section of a rulesync subagent's frontmatter: its
`tools` key plus the remaining keys. -/
structure CopilotSection where
  tools : Option ToolsField
  extra : List (String × Value)

/-- The fields of a rulesync subagent's frontmatter consumed by the
Copilot subagent adapter. -/
structure RulesyncSubagentFm where
  name : String
  description : String
  copilot : Option CopilotSection

/-- The Copilot subagent frontmatter (`CopilotSubagentFrontmatterSchema`),
with the `tools` field as produced by the adapter. -/
structure CopilotSubagentFrontmatter where
  name : String
  description : String
  tools : Option ToolsField
  extra : List (String × Value)

/-- The `userTools` of `CopilotSubagent.fromRulesyncSubagent`: the
section's `tools` value through the string/array runtime guard and
`normalizeTools`. -/
def copilotUserTools (rs : RulesyncSubagentFm) : List String :=
  normalizeTools
    (match (rs.copilot.getD ⟨none, []⟩).tools with
      | some (.str s) => some (.str s)
      | some (.arr xs) => some (.arr xs)
      | some (.other _) => none
      | none => none)

/-- The `mergedTools` of `CopilotSubagent.fromRulesyncSubagent`. -/
def copilotMergedTools (rs : RulesyncSubagentFm) : List String :=
  ensureRequiredTool (copilotUserTools rs)

/-- Embeds the frontmatter computation of
`CopilotSubagent.fromRulesyncSubagent`: user tools from the `copilot`
section are normalized (string/array guard), merged with the required
tool, de-duplicated, and written back when non-empty. -/
def copilotSubagentFromRulesync (rs : RulesyncSubagentFm) : CopilotSubagentFrontmatter :=
  let copilotSection := rs.copilot.getD ⟨none, []⟩
  let mergedTools := copilotMergedTools rs
  { name := rs.name
    description := rs.description
    tools := if mergedTools.length > 0 then some (.arr mergedTools) else copilotSection.tools
    extra := copilotSection.extra }

/-- Embeds the `opencode` extension section built by
`OpenCodeSubagent.toRulesyncSubagent`: the frontmatter without
`description`/`mode`/`name`, with the `mode` value put back in front
(`{ mode, ...opencodeSection }`); `mode` defaults to `"subagent"` per the
schema. -/
def opencodeSubagentToRulesyncSection (fm : List (String × Value)) : List (String × Value) :=
  let rest := fm.filter (fun kv => kv.1 ≠ "description" ∧ kv.1 ≠ "mode" ∧ kv.1 ≠ "name")
  ("mode", (List.lookup "mode" fm).getD (.vstr "subagent")) :: rest

/-- Embeds the frontmatter computation of
`OpenCodeSubagent.fromRulesyncSubagent` on the object level:
`{...opencodeSection, description, mode: "subagent", ...(name && {name})}`
(`name` is a required string of the rulesync frontmatter, spread only when
truthy). -/
def opencodeSubagentFromRulesync (rsName : String) (rsDescription : String)
    (opencodeSection : List (String × Value)) : List (String × Value) :=
  let step1 := objSet opencodeSection "description" (.vstr rsDescription)
  let step2 := objSet step1 "mode" (.vstr "subagent")
  if rsName ≠ "" then objSet step2 "name" (.vstr rsName) else step2

/-- Embeds the `cursor` extension section built by
`CursorCommand.toRulesyncCommand`: every frontmatter key except
`description`. -/
def cursorCommandToRulesyncSection (fm : List (String × Value)) : List (String × Value) :=
  fm.filter (fun kv => kv.1 ≠ "description")

/-- Embeds the frontmatter computation of
`CursorCommand.fromRulesyncCommand` on the object level:
`{...(description && {description}), ...cursorFields}`. -/
def cursorCommandFromRulesync (rsDescription : String)
    (cursorFields : List (String × Value)) : List (String × Value) :=
  let base := if rsDescription ≠ "" then [("description", Value.vstr rsDescription)] else []
  jsSpreadMerge base cursorFields

/-- The tool-wide boolean map produced for one server named `n` with
enabled tools `et` and disabled tools `dt`. -/
def serverToolsMap (n : String) (et dt : List String) : List (String × Bool) :=
  et.map (fun t => (n ++ "_" ++ t, true)) ++ dt.map (fun t => (n ++ "_" ++ t, false))

/-- A canonical stdio server carrying enabled and disabled tool lists,
used to state the tools-map round trip. -/
def stdioToolsServer (et dt : List String) : McpServer :=
  { emptyMcpServer with
      type := some "stdio"
      command := some (.str "npx")
      enabledTools := some et
      disabledTools := some dt }

end Rulesync

namespace Rulesync

mutual

theorem deepRemoveNullishValue_idem (v : Value) :
    ∀ y, deepRemoveNullishValue v = some y → deepRemoveNullishValue y = some y := by
  cases v with
  | vnull => intro y h; simp [deepRemoveNullishValue] at h
  | vundef => intro y h; simp [deepRemoveNullishValue] at h
  | vbool b => intro y h; simp [deepRemoveNullishValue] at h; subst h; rfl
  | vnum n => intro y h; simp [deepRemoveNullishValue] at h; subst h; rfl
  | vstr s => intro y h; simp [deepRemoveNullishValue] at h; subst h; rfl
  | varr items =>
    intro y h
    simp only [deepRemoveNullishValue, Option.some.injEq] at h
    subst h
    simp [deepRemoveNullishValue, deepRemoveNullishList_idem items]
  | vobj fields =>
    intro y h
    simp only [deepRemoveNullishValue, Option.some.injEq] at h
    subst h
    simp [deepRemoveNullishValue, deepRemoveNullishFields_idem fields]

theorem deepRemoveNullishList_idem (xs : List Value) :
    deepRemoveNullishList (deepRemoveNullishList xs) = deepRemoveNullishList xs := by
  cases xs with
  | nil => rfl
  | cons x xs =>
    cases hx : deepRemoveNullishValue x with
    | none => simp [deepRemoveNullishList, hx, deepRemoveNullishList_idem xs]
    | some y =>
      simp [deepRemoveNullishList, hx, deepRemoveNullishValue_idem x y hx,
        deepRemoveNullishList_idem xs]

theorem deepRemoveNullishFields_idem (fs : List (String × Value)) :
    deepRemoveNullishFields (deepRemoveNullishFields fs) = deepRemoveNullishFields fs := by
  cases fs with
  | nil => rfl
  | cons f fs =>
    obtain ⟨k, v⟩ := f
    cases hv : deepRemoveNullishValue v with
    | none => simp [deepRemoveNullishFields, hv, deepRemoveNullishFields_idem fs]
    | some y =>
      simp [deepRemoveNullishFields, hv, deepRemoveNullishValue_idem v y hv,
        deepRemoveNullishFields_idem fs]

end

theorem deepRemoveNullishObject_idem (obj : List (String × Value)) :
    deepRemoveNullishObject (deepRemoveNullishObject obj) = deepRemoveNullishObject obj :=
  deepRemoveNullishFields_idem obj

theorem deepRemoveNullishFields_mem (fs : List (String × Value)) (k : String) (v : Value) :
    (k, v) ∈ deepRemoveNullishFields fs ↔
      ∃ v₀, (k, v₀) ∈ fs ∧ deepRemoveNullishValue v₀ = some v := by
  induction fs with
  | nil => simp [deepRemoveNullishFields]
  | cons f fs ih =>
    obtain ⟨k', v'⟩ := f
    cases hv : deepRemoveNullishValue v' with
    | none =>
      simp only [deepRemoveNullishFields, hv, ih, List.mem_cons]
      constructor
      · rintro ⟨v₀, hm, hc⟩
        exact ⟨v₀, Or.inr hm, hc⟩
      · rintro ⟨v₀, hm | hm, hc⟩
        · obtain ⟨hk, hveq⟩ := Prod.mk.injEq .. ▸ hm
          subst hveq
          rw [hv] at hc
          exact absurd hc (by simp)
        · exact ⟨v₀, hm, hc⟩
    | some y =>
      simp only [deepRemoveNullishFields, hv, List.mem_cons, ih]
      constructor
      · rintro (hm | ⟨v₀, hm, hc⟩)
        · obtain ⟨hk, hveq⟩ := Prod.mk.injEq .. ▸ hm
          exact ⟨v', by left; rw [hk], by rw [hv, hveq]⟩
        · exact ⟨v₀, Or.inr hm, hc⟩
      · rintro ⟨v₀, hm | hm, hc⟩
        · obtain ⟨hk, hveq⟩ := Prod.mk.injEq .. ▸ hm
          subst hveq
          rw [hv] at hc
          left
          rw [hk]
          cases hc
          rfl
        · exact Or.inr ⟨v₀, hm, hc⟩

theorem pairCodec_roundTrips : MatterRoundTrips pairCodec := by
  intro body metadata
  exact ⟨body, rfl, rfl⟩


theorem lookup_cons_self {α : Type} (k : String) (v : α) (l : List (String × α)) :
    List.lookup k ((k, v) :: l) = some v := by
  simp [List.lookup]

theorem lookup_cons_ne {α : Type} (k k' : String) (v : α) (l : List (String × α))
    (h : k' ≠ k) : List.lookup k' ((k, v) :: l) = List.lookup k' l := by
  simp [List.lookup, beq_eq_false_iff_ne.mpr h]

theorem lookup_filter_keyNe {α : Type} (l : List (String × α)) (bad k : String)
    (hk : k ≠ bad) :
    List.lookup k (l.filter (fun kv => kv.1 ≠ bad)) = List.lookup k l := by
  induction l with
  | nil => rfl
  | cons kv l ih =>
    obtain ⟨k₀, v₀⟩ := kv
    by_cases h0 : k₀ = bad
    · subst h0
      rw [List.filter_cons_of_neg (by simp), lookup_cons_ne k₀ k v₀ l hk, ih]
    · rw [List.filter_cons_of_pos (by simpa using h0)]
      by_cases hkk : k = k₀
      · subst hkk
        rw [lookup_cons_self, lookup_cons_self]
      · rw [lookup_cons_ne k₀ k v₀ _ hkk, lookup_cons_ne k₀ k v₀ l hkk, ih]

theorem lookup_filter_keySelf {α : Type} (l : List (String × α)) (bad : String) :
    List.lookup bad (l.filter (fun kv => kv.1 ≠ bad)) = none := by
  induction l with
  | nil => rfl
  | cons kv l ih =>
    obtain ⟨k₀, v₀⟩ := kv
    by_cases h0 : k₀ = bad
    · subst h0
      rw [List.filter_cons_of_neg (by simp), ih]
    · rw [List.filter_cons_of_pos (by simpa using h0),
        lookup_cons_ne k₀ bad v₀ _ (Ne.symm h0), ih]

theorem lookup_map_keyReplace {α : Type} (k : String) (v : α) :
    ∀ l : List (String × α), l.any (fun kv => kv.1 = k) = true →
    List.lookup k (l.map (fun kv => if kv.1 = k then (k, v) else kv)) = some v := by
  intro l
  induction l with
  | nil => intro h; simp at h
  | cons kv l ih =>
    intro h
    obtain ⟨k₀, v₀⟩ := kv
    by_cases h0 : k₀ = k
    · subst h0
      rw [List.map_cons, if_pos rfl, lookup_cons_self]
    · have htail : l.any (fun kv => kv.1 = k) = true := by
        simp only [List.any_cons, decide_eq_true_eq, h0] at h
        simpa using h
      rw [List.map_cons, if_neg h0, lookup_cons_ne k₀ k v₀ _ (Ne.symm h0), ih htail]

theorem lookup_append_fresh {α : Type} (k : String) (v : α) :
    ∀ l : List (String × α), l.any (fun kv => kv.1 = k) = false →
    List.lookup k (l ++ [(k, v)]) = some v := by
  intro l
  induction l with
  | nil => simp [List.lookup]
  | cons kv l ih =>
    intro h
    obtain ⟨k₀, v₀⟩ := kv
    simp only [List.any_cons, Bool.or_eq_false_iff, decide_eq_false_iff_not] at h
    rw [List.cons_append, lookup_cons_ne k₀ k v₀ _ (Ne.symm h.1),
      ih (by simpa [List.any_eq_false] using h.2)]

theorem lookup_objSet_self {α : Type} (l : List (String × α)) (k : String) (v : α) :
    List.lookup k (objSet l k v) = some v := by
  by_cases hany : l.any (fun kv => decide (kv.1 = k)) = true
  · rw [objSet, if_pos (by simpa using hany)]
    exact lookup_map_keyReplace k v l hany
  · rw [objSet, if_neg (by simpa using hany)]
    exact lookup_append_fresh k v l (by simpa using (Bool.not_eq_true _).mp hany)

theorem lookup_objSet_ne {α : Type} (l : List (String × α)) (k k' : String) (v : α)
    (h : k' ≠ k) : List.lookup k' (objSet l k v) = List.lookup k' l := by
  rw [objSet]
  by_cases hany : l.any (fun kv => kv.1 = k) = true
  · rw [if_pos (by simpa using hany)]
    clear hany
    induction l with
    | nil => rfl
    | cons kv l ih =>
      obtain ⟨k₀, v₀⟩ := kv
      by_cases h0 : k₀ = k
      · subst h0
        rw [List.map_cons, if_pos rfl, lookup_cons_ne k₀ k' v _ h,
          lookup_cons_ne k₀ k' v₀ l h, ih]
      · by_cases hkk : k' = k₀
        · subst hkk
          rw [List.map_cons, if_neg h0, lookup_cons_self, lookup_cons_self]
        · rw [List.map_cons, if_neg h0, lookup_cons_ne k₀ k' v₀ _ hkk,
            lookup_cons_ne k₀ k' v₀ l hkk, ih]
  · rw [if_neg (by simpa using hany)]
    clear hany
    induction l with
    | nil => simp [List.lookup, beq_eq_false_iff_ne.mpr h]
    | cons kv l ih =>
      obtain ⟨k₀, v₀⟩ := kv
      by_cases hkk : k' = k₀
      · subst hkk
        rw [List.cons_append, lookup_cons_self, lookup_cons_self]
      · rw [List.cons_append, lookup_cons_ne k₀ k' v₀ _ hkk,
          lookup_cons_ne k₀ k' v₀ l hkk, ih]

theorem objSet_fresh {α : Type} (l : List (String × α)) (k : String) (v : α)
    (h : ∀ kv ∈ l, kv.1 ≠ k) : objSet l k v = l ++ [(k, v)] := by
  rw [objSet, if_neg]
  intro hc
  rw [List.any_eq_true] at hc
  obtain ⟨kv, hm, hkv⟩ := hc
  exact h kv hm (by simpa using hkv)

/-- C7: Nullish stripping removes exactly the nullish-valued keys, at every
depth (objects recurse through `deepRemoveNullishValue`, arrays filter out
nullish elements), and preserves falsy non-nullish values: in particular
`{a: null, b: undefined, c: 0, d: false, e: ""}` strips to exactly
`{c: 0, d: false, e: ""}`. -/
theorem C7_deepRemoveNullish_spec :
    (∀ (fs : List (String × Value)) (k : String) (v : Value),
      (k, v) ∈ deepRemoveNullishObject fs ↔
        ∃ v₀, (k, v₀) ∈ fs ∧ deepRemoveNullishValue v₀ = some v) ∧
    deepRemoveNullishValue .vnull = none ∧
    deepRemoveNullishValue .vundef = none ∧
    (∀ fields, deepRemoveNullishValue (.vobj fields) =
      some (.vobj (deepRemoveNullishFields fields))) ∧
    (∀ items, deepRemoveNullishValue (.varr items) =
      some (.varr (deepRemoveNullishList items))) ∧
    (∀ b, deepRemoveNullishValue (.vbool b) = some (.vbool b)) ∧
    (∀ n, deepRemoveNullishValue (.vnum n) = some (.vnum n)) ∧
    (∀ s, deepRemoveNullishValue (.vstr s) = some (.vstr s)) ∧
    deepRemoveNullishObject
      [("a", .vnull), ("b", .vundef), ("c", .vnum 0), ("d", .vbool false), ("e", .vstr "")] =
      [("c", .vnum 0), ("d", .vbool false), ("e", .vstr "")] := by
  refine ⟨deepRemoveNullishFields_mem, rfl, rfl, fun _ => rfl, fun _ => rfl,
    fun _ => rfl, fun _ => rfl, fun _ => rfl, rfl⟩

/-- C4: for every body and every metadata map, parsing the result of
stringifying them (through any codec satisfying the gray-matter round-trip
contract) succeeds, returns a body equal to the original up to trimming,
and returns metadata equal to the deep nullish-stripped original. -/
theorem C4_parse_stringify_roundtrip {α : Type} (codec : MatterCodec α)
    (h : MatterRoundTrips codec) (body : String) (metadata : List (String × Value)) :
    ∃ body',
      parseFrontmatter codec (stringifyFrontmatter codec body metadata) none =
        .ok (deepRemoveNullishObject metadata, body') ∧
      body'.trim = body.trim := by
  obtain ⟨body', hrun, htrim⟩ := h body (deepRemoveNullishObject metadata)
  refine ⟨body', ?_, htrim⟩
  simp [parseFrontmatter, stringifyFrontmatter, hrun, deepRemoveNullishObject_idem]

/-- Witness for C4 at a concrete codec, body and metadata map. -/
theorem C4_parse_stringify_roundtrip_witness :
    ∃ body',
      parseFrontmatter pairCodec
          (stringifyFrontmatter pairCodec "hello world"
            [("title", .vstr "t"), ("gone", .vnull)]) none =
        .ok (deepRemoveNullishObject [("title", .vstr "t"), ("gone", .vnull)], body') ∧
      body'.trim = "hello world".trim :=
  C4_parse_stringify_roundtrip pairCodec pairCodec_roundTrips "hello world"
    [("title", .vstr "t"), ("gone", .vnull)]

/-- C8: whenever the metadata block is not syntactically valid (the
underlying `matter` call fails), `parseFrontmatter` fails; with a source
path supplied the thrown error's message contains that path and its cause
is the underlying parser error, and without a path the underlying error is
propagated unchanged. -/
theorem C8_parseFrontmatter_error {α : Type} (codec : MatterCodec α)
    (content : α) (e : JsError) (fp : String) (h : codec.run content = .error e) :
    (∃ err : JsError,
      parseFrontmatter codec content (some fp) = .error err ∧
      (∃ s₁ s₂, err.message = s₁ ++ fp ++ s₂) ∧
      err.cause = some e) ∧
    parseFrontmatter codec content none = .error e := by
  constructor
  · refine ⟨.mk ("Failed to parse frontmatter in " ++ fp ++ ": " ++ e.message) (some e), ?_,
      ⟨"Failed to parse frontmatter in ", ": " ++ e.message, ?_⟩, rfl⟩
    · simp [parseFrontmatter, h]
    · simp [JsError.message, String.append_assoc]
  · simp [parseFrontmatter, h]

/-- C1: the Antigravity rule trigger is resolved first-match-wins over the
six strategies in priority order glob, manual, always_on, model_decision,
pass-through (any other defined string), inference (undefined); a stored
trigger `"glob"` yields trigger `"glob"` with the effective globs
comma-joined and never falls through; with no stored trigger, a non-empty
non-wildcard effective glob list yields `"glob"` with comma-joined globs,
and an empty or wildcard list yields `"always_on"`. -/
theorem C1_antigravity_trigger_strategies :
    ((STRATEGIES.findIdx fun s => s.canHandle (some "glob")) = 0 ∧
     (STRATEGIES.findIdx fun s => s.canHandle (some "manual")) = 1 ∧
     (STRATEGIES.findIdx fun s => s.canHandle (some "always_on")) = 2 ∧
     (STRATEGIES.findIdx fun s => s.canHandle (some "model_decision")) = 3 ∧
     (∀ t : String, t ≠ "glob" → t ≠ "manual" → t ≠ "always_on" → t ≠ "model_decision" →
       (STRATEGIES.findIdx fun s => s.canHandle (some t)) = 4) ∧
     (STRATEGIES.findIdx fun s => s.canHandle none) = 5) ∧
    (∀ (rsf : RulesyncRuleFrontmatter) (sa : StoredAntigravity),
      rsf.antigravity = some sa → sa.trigger = some "glob" →
      ∃ fm, antigravityRuleFromRulesync rsf = some fm ∧
        fm.trigger = some "glob" ∧
        fm.globs = stringifyGlobs (effectiveGlobsArray (normalizeStoredAntigravity (some sa)) rsf) ∧
        (effectiveGlobsArray (normalizeStoredAntigravity (some sa)) rsf ≠ [] →
          fm.globs = some (String.intercalate ","
            (effectiveGlobsArray (normalizeStoredAntigravity (some sa)) rsf)))) ∧
    (∀ rsf : RulesyncRuleFrontmatter,
      rsf.antigravity.bind (·.trigger) = none →
      effectiveGlobsArray (normalizeStoredAntigravity rsf.antigravity) rsf ≠ [] →
      ¬ (effectiveGlobsArray (normalizeStoredAntigravity rsf.antigravity) rsf).contains "**/*" →
      ¬ (effectiveGlobsArray (normalizeStoredAntigravity rsf.antigravity) rsf).contains "*" →
      ∃ fm, antigravityRuleFromRulesync rsf = some fm ∧
        fm.trigger = some "glob" ∧
        fm.globs = some (String.intercalate ","
          (effectiveGlobsArray (normalizeStoredAntigravity rsf.antigravity) rsf))) ∧
    (∀ rsf : RulesyncRuleFrontmatter,
      rsf.antigravity.bind (·.trigger) = none →
      (effectiveGlobsArray (normalizeStoredAntigravity rsf.antigravity) rsf = [] ∨
        (effectiveGlobsArray (normalizeStoredAntigravity rsf.antigravity) rsf).contains "**/*" ∨
        (effectiveGlobsArray (normalizeStoredAntigravity rsf.antigravity) rsf).contains "*") →
      ∃ fm, antigravityRuleFromRulesync rsf = some fm ∧
        fm.trigger = some "always_on") := by
  refine ⟨⟨rfl, rfl, rfl, rfl, ?_, rfl⟩, ?_, ?_, ?_⟩
  · intro t h1 h2 h3 h4
    simp [STRATEGIES, List.findIdx_cons, globStrategy, manualStrategy, alwaysOnStrategy,
      modelDecisionStrategy, unknownStrategy, beq_eq_false_iff_ne.mpr h1,
      beq_eq_false_iff_ne.mpr h2, beq_eq_false_iff_ne.mpr h3, beq_eq_false_iff_ne.mpr h4]
  · intro rsf sa h1 h2
    have hfind : STRATEGIES.find? (fun s => s.canHandle (some "glob")) = some globStrategy := rfl
    refine ⟨globStrategy.generateFrontmatter (normalizeStoredAntigravity (some sa)) rsf, ?_, rfl,
      rfl, ?_⟩
    · simp [antigravityRuleFromRulesync, h1, h2, hfind]
    · intro hne
      simp [globStrategy, stringifyGlobs, hne]
  · intro rsf h1 h2 h3 h4
    have hfind : STRATEGIES.find? (fun s => s.canHandle none) = some inferenceStrategy := rfl
    refine ⟨inferenceStrategy.generateFrontmatter (normalizeStoredAntigravity rsf.antigravity) rsf,
      ?_, ?_, ?_⟩
    · simp only [antigravityRuleFromRulesync, h1, hfind]
    · simp only [inferenceStrategy]
      rw [if_pos ⟨List.length_pos.mpr h2, by simpa using h3, by simpa using h4⟩]
    · simp only [inferenceStrategy]
      rw [if_pos ⟨List.length_pos.mpr h2, by simpa using h3, by simpa using h4⟩]
      simp [stringifyGlobs, h2]
  · intro rsf h1 h2
    have hfind : STRATEGIES.find? (fun s => s.canHandle none) = some inferenceStrategy := rfl
    refine ⟨inferenceStrategy.generateFrontmatter (normalizeStoredAntigravity rsf.antigravity) rsf,
      ?_, ?_⟩
    · simp only [antigravityRuleFromRulesync, h1, hfind]
    · simp only [inferenceStrategy]
      rw [if_neg]
      rintro ⟨hl, hc1, hc2⟩
      rcases h2 with h | h | h
      · rw [h] at hl; simp at hl
      · exact hc1 (by simpa using h)
      · exact hc2 (by simpa using h)

/-- Witness for C1: concrete rules exercising the stored-"glob" case, the
inference-to-glob case, the inference-to-always_on case, and the
pass-through priority slot. -/
theorem C1_antigravity_trigger_strategies_witness :
    (∃ fm, antigravityRuleFromRulesync
        ⟨none, some ["src/a.ts"], some ⟨some "glob", none, none⟩⟩ = some fm ∧
      fm.trigger = some "glob" ∧
      fm.globs = stringifyGlobs (effectiveGlobsArray
        (normalizeStoredAntigravity (some ⟨some "glob", none, none⟩))
        ⟨none, some ["src/a.ts"], some ⟨some "glob", none, none⟩⟩) ∧
      (effectiveGlobsArray (normalizeStoredAntigravity (some ⟨some "glob", none, none⟩))
          ⟨none, some ["src/a.ts"], some ⟨some "glob", none, none⟩⟩ ≠ [] →
        fm.globs = some (String.intercalate ","
          (effectiveGlobsArray (normalizeStoredAntigravity (some ⟨some "glob", none, none⟩))
            ⟨none, some ["src/a.ts"], some ⟨some "glob", none, none⟩⟩)))) ∧
    (∃ fm, antigravityRuleFromRulesync ⟨none, some ["src/**/*.ts"], none⟩ = some fm ∧
      fm.trigger = some "glob" ∧
      fm.globs = some (String.intercalate "," (effectiveGlobsArray
        (normalizeStoredAntigravity none) ⟨none, some ["src/**/*.ts"], none⟩))) ∧
    (∃ fm, antigravityRuleFromRulesync ⟨none, some ["**/*"], none⟩ = some fm ∧
      fm.trigger = some "always_on") ∧
    (STRATEGIES.findIdx fun s => s.canHandle (some "custom")) = 4 :=
  ⟨C1_antigravity_trigger_strategies.2.1 _ ⟨some "glob", none, none⟩ rfl rfl,
   C1_antigravity_trigger_strategies.2.2.1 _ rfl (by decide) (by decide) (by decide),
   C1_antigravity_trigger_strategies.2.2.2 _ rfl (Or.inr (Or.inl (by decide))),
   C1_antigravity_trigger_strategies.1.2.2.2.2.1 "custom" (by decide) (by decide) (by decide)
     (by decide)⟩

/-- Witness for C8 at a concrete always-failing codec and a concrete path. -/
theorem C8_parseFrontmatter_error_witness :
    (∃ err : JsError,
      parseFrontmatter (failCodec (.mk "boom" none)) () (some "path/to/file.md") = .error err ∧
      (∃ s₁ s₂, err.message = s₁ ++ "path/to/file.md" ++ s₂) ∧
      err.cause = some (.mk "boom" none)) ∧
    parseFrontmatter (failCodec (.mk "boom" none)) () none = .error (.mk "boom" none) :=
  C8_parseFrontmatter_error (failCodec (.mk "boom" none)) () (.mk "boom" none)
    "path/to/file.md" rfl

/-- C10: generating OpenCode MCP configuration over an existing
`opencode.json` object leaves every top-level key other than `mcp` and
`tools` unchanged, replaces `mcp` with the converted servers, removes the
pre-existing `tools` key and re-emits one only when the converted tool map
is non-empty, and `OpencodeMcp.isDeletable()` is `false`. -/
theorem C10_opencode_mcp_frame (existingJson : List (String × Value))
    (mcpServers : List (String × McpServer)) :
    (∀ k, k ≠ "mcp" → k ≠ "tools" →
      List.lookup k (opencodeMcpFromRulesync existingJson mcpServers) =
        List.lookup k existingJson) ∧
    List.lookup "mcp" (opencodeMcpFromRulesync existingJson mcpServers) =
      some (encodeOpencodeMcp (convertToOpencodeFormat mcpServers).1) ∧
    ((convertToOpencodeFormat mcpServers).2 = [] →
      List.lookup "tools" (opencodeMcpFromRulesync existingJson mcpServers) = none) ∧
    ((convertToOpencodeFormat mcpServers).2 ≠ [] →
      List.lookup "tools" (opencodeMcpFromRulesync existingJson mcpServers) =
        some (encodeToolsMap (convertToOpencodeFormat mcpServers).2)) ∧
    opencodeMcpIsDeletable = false := by
  by_cases hlen : (convertToOpencodeFormat mcpServers).2.length > 0
  · have hout : opencodeMcpFromRulesync existingJson mcpServers =
        objSet
          (objSet (existingJson.filter (fun kv => kv.1 ≠ "tools")) "mcp"
            (encodeOpencodeMcp (convertToOpencodeFormat mcpServers).1))
          "tools" (encodeToolsMap (convertToOpencodeFormat mcpServers).2) := by
      rw [opencodeMcpFromRulesync]
      simp only [hlen, if_pos]
    refine ⟨?_, ?_, ?_, ?_, rfl⟩
    · intro k hk1 hk2
      rw [hout, lookup_objSet_ne _ _ _ _ hk2, lookup_objSet_ne _ _ _ _ hk1,
        lookup_filter_keyNe _ _ _ hk2]
    · rw [hout, lookup_objSet_ne _ _ _ _ (by decide), lookup_objSet_self]
    · intro hnil
      rw [hnil] at hlen
      simp at hlen
    · intro _
      rw [hout, lookup_objSet_self]
  · have hnil : (convertToOpencodeFormat mcpServers).2 = [] := by
      rcases h : (convertToOpencodeFormat mcpServers).2 with _ | ⟨a, l⟩
      · rfl
      · rw [h] at hlen
        simp at hlen
    have hout : opencodeMcpFromRulesync existingJson mcpServers =
        objSet (existingJson.filter (fun kv => kv.1 ≠ "tools")) "mcp"
          (encodeOpencodeMcp (convertToOpencodeFormat mcpServers).1) := by
      rw [opencodeMcpFromRulesync]
      rw [if_neg hlen]
    refine ⟨?_, ?_, ?_, ?_, rfl⟩
    · intro k hk1 hk2
      rw [hout, lookup_objSet_ne _ _ _ _ hk1, lookup_filter_keyNe _ _ _ hk2]
    · rw [hout, lookup_objSet_self]
    · intro _
      rw [hout, lookup_objSet_ne _ _ _ _ (by decide), lookup_filter_keySelf]
    · intro hne
      exact absurd hnil hne

/-- Witness for C10 at a concrete pre-existing `opencode.json` object and
a concrete server set with a non-empty tool map. -/
theorem C10_opencode_mcp_frame_witness :
    List.lookup "model" (opencodeMcpFromRulesync
        [("model", .vstr "sonnet"), ("tools", .vbool true)]
        [("s", { emptyMcpServer with
            type := some "stdio"
            command := some (.str "npx")
            enabledTools := some ["search"] })]) =
      List.lookup "model" [("model", Value.vstr "sonnet"), ("tools", Value.vbool true)] ∧
    List.lookup "tools" (opencodeMcpFromRulesync
        [("model", .vstr "sonnet"), ("tools", .vbool true)]
        [("s", { emptyMcpServer with
            type := some "stdio"
            command := some (.str "npx")
            enabledTools := some ["search"] })]) =
      some (encodeToolsMap (convertToOpencodeFormat
        [("s", { emptyMcpServer with
            type := some "stdio"
            command := some (.str "npx")
            enabledTools := some ["search"] })]).2) :=
  ⟨(C10_opencode_mcp_frame _ _).1 "model" (by decide) (by decide),
   (C10_opencode_mcp_frame _ _).2.2.2.1 (by decide)⟩

theorem strAppend_cancel (a b c : String) (h : a ++ b = a ++ c) : b = c := by
  have hd := congrArg String.data h
  rw [String.data_append, String.data_append] at hd
  have hbc := List.append_cancel_left hd
  cases b
  cases c
  exact congrArg String.mk hbc

theorem jsStartsWith_append (p t : String) : jsStartsWith (p ++ t) p = true := by
  rw [jsStartsWith, String.data_append, List.isPrefixOf_iff_prefix]
  exact List.prefix_append _ _

theorem jsDropChars_append (p t : String) : jsDropChars (p ++ t) p.length = t := by
  rw [jsDropChars, String.data_append]
  have hl : p.length = p.data.length := rfl
  rw [hl, List.drop_left]

theorem foldl_objSet_fresh (n : String) (flag : Bool) :
    ∀ (ts : List String) (acc : List (String × Bool)), ts.Nodup →
    (∀ t ∈ ts, ∀ kv ∈ acc, kv.1 ≠ n ++ "_" ++ t) →
    ts.foldl (fun tl t => objSet tl (n ++ "_" ++ t) flag) acc =
      acc ++ ts.map (fun t => (n ++ "_" ++ t, flag)) := by
  intro ts
  induction ts with
  | nil => intro acc _ _; simp
  | cons t ts ih =>
    intro acc hnd hfresh
    rw [List.foldl_cons, objSet_fresh _ _ _ (fun kv hm => hfresh t (by simp) kv hm),
      ih (acc ++ [(n ++ "_" ++ t, flag)]) hnd.of_cons ?fresh]
    · simp
    case fresh =>
      intro t' ht' kv hkv
      rcases List.mem_append.mp hkv with h | h
      · exact hfresh t' (List.mem_cons_of_mem t ht') kv h
      · simp only [List.mem_singleton] at h
        subst h
        intro hc
        have ht : t = t' := strAppend_cancel (n ++ "_") t t' hc
        exact (List.nodup_cons.mp hnd).1 (ht ▸ ht')

theorem serverToolsMap_filter_pfx (n : String) (et dt : List String) :
    (serverToolsMap n et dt).filter (fun kv => jsStartsWith kv.1 (n ++ "_")) =
      serverToolsMap n et dt := by
  rw [List.filter_eq_self]
  intro kv hm
  rcases List.mem_append.mp hm with h | h <;>
    · obtain ⟨t, _, rfl⟩ := List.mem_map.mp h
      exact jsStartsWith_append (n ++ "_") t

theorem serverToolsMap_filter_true (n : String) (et dt : List String) :
    (serverToolsMap n et dt).filter (fun kv => kv.2) =
      et.map (fun t => (n ++ "_" ++ t, true)) := by
  rw [serverToolsMap, List.filter_append]
  rw [List.filter_eq_self.mpr (by intro kv hm; obtain ⟨t, _, rfl⟩ := List.mem_map.mp hm; rfl)]
  rw [List.filter_eq_nil_iff.mpr (by intro kv hm; obtain ⟨t, _, rfl⟩ := List.mem_map.mp hm; simp)]
  simp

theorem serverToolsMap_filter_false (n : String) (et dt : List String) :
    (serverToolsMap n et dt).filter (fun kv => !kv.2) =
      dt.map (fun t => (n ++ "_" ++ t, false)) := by
  rw [serverToolsMap, List.filter_append]
  rw [List.filter_eq_nil_iff.mpr (by intro kv hm; obtain ⟨t, _, rfl⟩ := List.mem_map.mp hm; simp)]
  rw [List.filter_eq_self.mpr (by intro kv hm; obtain ⟨t, _, rfl⟩ := List.mem_map.mp hm; rfl)]
  simp

theorem map_dropPrefix (n : String) (flag : Bool) (ts : List String) :
    (ts.map (fun t => (n ++ "_" ++ t, flag))).map
        (fun kv => jsDropChars kv.1 (n ++ "_").length) = ts := by
  rw [List.map_map]
  have h : ∀ t ∈ ts,
      ((fun kv : String × Bool => jsDropChars kv.1 (n ++ "_").length) ∘
        (fun t => (n ++ "_" ++ t, flag))) t = t := by
    intro t _
    exact jsDropChars_append (n ++ "_") t
  rw [List.map_congr_left h]
  exact List.map_id ts

theorem convertTo_single_tools (n : String) (et dt : List String)
    (hnet : et.Nodup) (hndt : dt.Nodup) (hdisj : ∀ t ∈ dt, t ∉ et) :
    convertToOpencodeFormat [(n, stdioToolsServer et dt)] =
      ([(n, .localServer ["npx"] none true none)], serverToolsMap n et dt) := by
  simp only [convertToOpencodeFormat, List.foldl_cons, List.foldl_nil, stdioToolsServer,
    emptyMcpServer]
  rw [if_neg (by decide)]
  simp only [Option.getD_some, Option.getD_none, List.nil_append, List.append_nil]
  rw [foldl_objSet_fresh n true et [] hnet (by simp)]
  rw [foldl_objSet_fresh n false dt _ hndt ?fresh]
  · simp [serverToolsMap, truthyStr]
  case fresh =>
    intro t ht kv hkv
    simp only [List.nil_append] at hkv
    obtain ⟨t', ht', rfl⟩ := List.mem_map.mp hkv
    intro hc
    exact hdisj t ht (strAppend_cancel (n ++ "_") t' t hc ▸ ht')

theorem convertFrom_single_tools (n : String) (et dt : List String)
    (het : et ≠ []) (hdt : dt ≠ []) :
    convertFromOpencodeFormat [(n, .localServer ["npx"] none true none)]
        (some (serverToolsMap n et dt)) =
      .ok [(n, stdioToolsServer et dt)] := by
  simp only [convertFromOpencodeFormat, convertOpencodeServerEntry, Option.getD_some]
  rw [serverToolsMap_filter_pfx, serverToolsMap_filter_true, serverToolsMap_filter_false,
    map_dropPrefix, map_dropPrefix]
  rw [if_pos (List.length_pos.mpr het), if_pos (List.length_pos.mpr hdt)]
  simp [stdioToolsServer, emptyMcpServer]

/-- C2 counterexample: an explicit canonical entry with `disabled: false`
round-trips to an entry whose `disabled` flag is absent, so the
disabled/enabled inversion is not an exact inverse in both directions. -/
theorem C2_disabled_false_counterexample :
    convertToOpencodeFormat [("s", { emptyMcpServer with
        type := some "stdio"
        command := some (.str "npx")
        args := some ["-y", "pkg"]
        disabled := some false })] =
      ([("s", .localServer ["npx", "-y", "pkg"] none true none)], []) ∧
    convertFromOpencodeFormat [("s", .localServer ["npx", "-y", "pkg"] none true none)] none =
      .ok [("s", { emptyMcpServer with
        type := some "stdio"
        command := some (.str "npx")
        args := some ["-y", "pkg"] })] ∧
    ({ emptyMcpServer with
        type := some "stdio"
        command := some (.str "npx")
        args := some ["-y", "pkg"] } : McpServer).disabled ≠ some false := by
  refine ⟨by rfl, by rfl, by decide⟩

/-- C2 (amended): the documented example round-trips exactly; per-server
enabled/disabled tool lists become `"<serverName>_<toolName>"` entries of
the tool-wide boolean map and are recovered exactly; `enabled`
round-trips exactly from the OpenCode side; and from the canonical side
`disabled` round-trips exactly except that an explicit `disabled: false`
re-imports as an absent flag. -/
theorem C2_opencode_mcp_inversion :
    (convertToOpencodeFormat [("s", { emptyMcpServer with
        type := some "stdio"
        command := some (.str "npx")
        args := some ["-y", "pkg"]
        disabled := some true })] =
      ([("s", .localServer ["npx", "-y", "pkg"] none false none)], []) ∧
     convertFromOpencodeFormat [("s", .localServer ["npx", "-y", "pkg"] none false none)]
        none =
      .ok [("s", { emptyMcpServer with
        type := some "stdio"
        command := some (.str "npx")
        args := some ["-y", "pkg"]
        disabled := some true })]) ∧
    (∀ (n : String) (et dt : List String), et.Nodup → dt.Nodup → (∀ t ∈ dt, t ∉ et) →
      et ≠ [] → dt ≠ [] →
      convertToOpencodeFormat [(n, stdioToolsServer et dt)] =
        ([(n, .localServer ["npx"] none true none)], serverToolsMap n et dt) ∧
      convertFromOpencodeFormat [(n, .localServer ["npx"] none true none)]
          (some (serverToolsMap n et dt)) =
        .ok [(n, stdioToolsServer et dt)]) ∧
    (∀ (n c : String) (en : Bool), c ≠ "" →
      convertFromOpencodeFormat [(n, .localServer [c] none en none)] none =
        .ok [(n, { emptyMcpServer with
          type := some "stdio"
          command := some (.str c)
          disabled := if en = false then some true else none })] ∧
      convertToOpencodeFormat [(n, { emptyMcpServer with
          type := some "stdio"
          command := some (.str c)
          disabled := if en = false then some true else none })] =
        ([(n, .localServer [c] none en none)], [])) ∧
    (∀ (n : String) (command : List String) (env : Option (List (String × String)))
        (en : Bool) (cwd : Option String),
      command.headD "" = "" →
      convertFromOpencodeFormat [(n, .localServer command env en cwd)] none =
        .error ("Server \"" ++ n ++ "\" has an empty command array")) ∧
    (∀ d : Option Bool, d ≠ some false →
      convertFromOpencodeFormat
          (convertToOpencodeFormat [("s", { emptyMcpServer with
            type := some "stdio"
            command := some (.str "npx")
            disabled := d })]).1 none =
        .ok [("s", { emptyMcpServer with
          type := some "stdio"
          command := some (.str "npx")
          disabled := d })]) := by
  refine ⟨⟨by rfl, by rfl⟩, ?_, ?_, ?_, ?_⟩
  · intro n et dt hnet hndt hdisj het hdt
    exact ⟨convertTo_single_tools n et dt hnet hndt hdisj,
      convertFrom_single_tools n et dt het hdt⟩
  · intro n c en hc
    cases en with
    | false =>
      constructor
      · simp [convertFromOpencodeFormat, convertOpencodeServerEntry, emptyMcpServer, hc]
      · simp only [convertToOpencodeFormat, List.foldl_cons, List.foldl_nil, emptyMcpServer]
        rw [if_neg (by decide)]
        simp [truthyStr, hc]
    | true =>
      constructor
      · simp [convertFromOpencodeFormat, convertOpencodeServerEntry, emptyMcpServer, hc]
      · simp only [convertToOpencodeFormat, List.foldl_cons, List.foldl_nil, emptyMcpServer]
        rw [if_neg (by decide)]
        simp [truthyStr, hc]
  · intro n command env en cwd hcmd
    rcases command with _ | ⟨cmd, args⟩
    · rfl
    · simp only [List.headD_cons] at hcmd
      subst hcmd
      rfl
  · intro d hd
    rcases d with _ | b
    · rfl
    · cases b with
      | false => exact absurd rfl hd
      | true => rfl

/-- Witness for C2 at concrete inputs: the tools-map recovery at a
concrete server and tool lists, the OpenCode-side round trip at a
non-empty command, the empty-command error, and the canonical-side round
trip at `disabled: some true`. -/
theorem C2_opencode_mcp_inversion_witness :
    (convertToOpencodeFormat [("srv", stdioToolsServer ["alpha"] ["beta"])] =
      ([("srv", .localServer ["npx"] none true none)], serverToolsMap "srv" ["alpha"] ["beta"]) ∧
     convertFromOpencodeFormat [("srv", .localServer ["npx"] none true none)]
        (some (serverToolsMap "srv" ["alpha"] ["beta"])) =
      .ok [("srv", stdioToolsServer ["alpha"] ["beta"])]) ∧
    convertFromOpencodeFormat [("srv", .localServer ["node"] none true none)] none =
      .ok [("srv", { emptyMcpServer with
        type := some "stdio"
        command := some (.str "node")
        disabled := none })] ∧
    convertFromOpencodeFormat [("srv", .localServer [""] none true none)] none =
      .error ("Server \"" ++ "srv" ++ "\" has an empty command array") ∧
    convertFromOpencodeFormat
        (convertToOpencodeFormat [("s", { emptyMcpServer with
          type := some "stdio"
          command := some (.str "npx")
          disabled := some true })]).1 none =
      .ok [("s", { emptyMcpServer with
        type := some "stdio"
        command := some (.str "npx")
        disabled := some true })] :=
  ⟨C2_opencode_mcp_inversion.2.1 "srv" ["alpha"] ["beta"] (by decide) (by decide) (by decide)
      (by decide) (by decide),
   (C2_opencode_mcp_inversion.2.2.1 "srv" "node" true (by decide)).1,
   C2_opencode_mcp_inversion.2.2.2.1 "srv" [""] none true none (by decide),
   C2_opencode_mcp_inversion.2.2.2.2 (some true) (by decide)⟩

theorem head?_dropWhile_ne {α : Type} (p : α → Bool) :
    ∀ (l : List α) (a : α), (l.dropWhile p).head? = some a → p a = false := by
  intro l
  induction l with
  | nil => intro a h; simp [List.dropWhile] at h
  | cons c l ih =>
    intro a h
    rw [List.dropWhile_cons] at h
    by_cases hc : p c = true
    · rw [if_pos hc] at h
      exact ih a h
    · rw [if_neg hc] at h
      simp only [List.head?_cons, Option.some.injEq] at h
      subst h
      simpa using hc

theorem getLast?_dropWhile_ne_nil {α : Type} (p : α → Bool) :
    ∀ l : List α, l.dropWhile p ≠ [] → (l.dropWhile p).getLast? = l.getLast? := by
  intro l
  induction l with
  | nil => intro h; simp [List.dropWhile] at h
  | cons c l ih =>
    intro h
    rw [List.dropWhile_cons] at h ⊢
    by_cases hc : p c = true
    · rw [if_pos hc] at h ⊢
      rw [ih h]
      rcases l with _ | ⟨b, m⟩
      · simp [List.dropWhile] at h
      · rw [List.getLast?_cons_cons]
    · rw [if_neg hc]

theorem sanitizeTrigger_class (t : String) :
    ∀ c ∈ (sanitizeTrigger t).data, isWordDashChar c = true := by
  intro c hc
  simp only [sanitizeTrigger] at hc
  rw [List.mem_reverse] at hc
  have h1 := (List.dropWhile_suffix (l := (t.data.map
    (fun c => if isWordDashChar c then c else '-')).dropWhile (· = '-') |>.reverse)
    (p := (· = '-'))).subset hc
  rw [List.mem_reverse] at h1
  have h2 := (List.dropWhile_suffix (l := t.data.map
    (fun c => if isWordDashChar c then c else '-')) (p := (· = '-'))).subset h1
  obtain ⟨c₀, _, hc0⟩ := List.mem_map.mp h2
  by_cases hw : isWordDashChar c₀ = true
  · rw [if_pos hw] at hc0
    rw [← hc0]
    exact hw
  · rw [if_neg hw] at hc0
    rw [← hc0]
    rfl

theorem sanitizeTrigger_no_edge_hyphen (t : String) :
    (sanitizeTrigger t).data.head? ≠ some '-' ∧
    (sanitizeTrigger t).data.getLast? ≠ some '-' := by
  simp only [sanitizeTrigger]
  constructor
  · rw [List.head?_reverse]
    intro h
    have hne : ((t.data.map (fun c => if isWordDashChar c then c else '-')).dropWhile
        (· = '-')).reverse.dropWhile (· = '-') ≠ [] := by
      intro hnil
      rw [hnil] at h
      simp at h
    rw [getLast?_dropWhile_ne_nil _ _ hne, List.getLast?_reverse] at h
    have := head?_dropWhile_ne (· = '-') _ _ h
    simp at this
  · rw [List.getLast?_reverse]
    intro h
    have := head?_dropWhile_ne (· = '-') _ _ h
    simp at this

theorem matchTriggerAt_shape (cs : List Char) (m : List Char)
    (h : matchTriggerAt cs = some m) : ∃ w, m = '/' :: w := by
  rw [matchTriggerAt] at h
  split at h
  · split at h
    · split at h
      · simp only [Option.some.injEq] at h
        exact ⟨_, h.symm⟩
      · simp at h
    · simp at h
  · simp at h

theorem findTriggerMatch_shape :
    ∀ (l : List Char) (m : List Char), findTriggerMatch l = some m → ∃ w, m = '/' :: w := by
  intro l
  induction l with
  | nil =>
    intro m h
    rw [show findTriggerMatch [] = none from rfl] at h
    simp at h
  | cons c l ih =>
    intro m h
    rw [findTriggerMatch] at h
    split at h
    · simp only [Option.some.injEq] at h
      subst h
      exact matchTriggerAt_shape _ _ (by assumption)
    · exact ih m h

theorem bodyTriggerMatch_ne_empty (body : String) (m : String)
    (h : bodyTriggerMatch body = some m) : m ≠ "" := by
  rw [bodyTriggerMatch] at h
  rcases hf : findTriggerMatch body.data with _ | cs
  · rw [hf] at h; simp at h
  · rw [hf] at h
    simp only [Option.map_some'] at h
    rw [Option.some.injEq] at h
    obtain ⟨w, rfl⟩ := findTriggerMatch_shape body.data cs hf
    rw [← h]
    intro hc
    have := congrArg String.data hc
    simp at this

/-- C5: the Antigravity command trigger is resolved with priority
explicit `antigravity.trigger`, then root-level `trigger`, then the
regex-extracted trigger from the body, then `/` plus the filename without
extension; the resolved trigger is sanitized to `[a-zA-Z0-9-_]` with edge
hyphens stripped, conversion fails with a validation error when
sanitization yields the empty string, and the output file is renamed to
`<slug>.md`. -/
theorem C5_antigravity_command_trigger :
    (∀ (rc : RulesyncCommandRecord) (cfg : List (String × Value)) (s : String),
      rc.frontmatter.antigravity = some (.vobj cfg) →
      objGet cfg "trigger" = some (.vstr s) → s ≠ "" →
      resolveTrigger rc (extractAntigravityConfig rc) = s) ∧
    (∀ (rc : RulesyncCommandRecord) (s : String),
      rc.frontmatter.antigravity = none →
      rc.frontmatter.trigger = some (.vstr s) → s ≠ "" →
      resolveTrigger rc (extractAntigravityConfig rc) = s) ∧
    (∀ (rc : RulesyncCommandRecord) (m : String),
      rc.frontmatter.antigravity = none →
      rc.frontmatter.trigger = none →
      bodyTriggerMatch rc.body = some m →
      resolveTrigger rc (extractAntigravityConfig rc) = m) ∧
    (∀ rc : RulesyncCommandRecord,
      rc.frontmatter.antigravity = none →
      rc.frontmatter.trigger = none →
      bodyTriggerMatch rc.body = none →
      resolveTrigger rc (extractAntigravityConfig rc) =
        "/" ++ nodeBasename rc.relativeFilePath ".md") ∧
    (∀ t : String,
      (∀ c ∈ (sanitizeTrigger t).data, c.isAlphanum = true ∨ c = '-' ∨ c = '_') ∧
      (sanitizeTrigger t).data.head? ≠ some '-' ∧
      (sanitizeTrigger t).data.getLast? ≠ some '-') ∧
    (∀ rc : RulesyncCommandRecord,
      (sanitizeTrigger (resolveTrigger rc (extractAntigravityConfig rc)) = "" →
        antigravityCommandFromRulesync rc =
          .error ("Invalid trigger: sanitization resulted in empty string from \"" ++
            resolveTrigger rc (extractAntigravityConfig rc) ++ "\"")) ∧
      (sanitizeTrigger (resolveTrigger rc (extractAntigravityConfig rc)) ≠ "" →
        ∃ res, antigravityCommandFromRulesync rc = .ok res ∧
          res.relativeFilePath =
            sanitizeTrigger (resolveTrigger rc (extractAntigravityConfig rc)) ++ ".md" ∧
          res.frontmatter.trigger =
            some (resolveTrigger rc (extractAntigravityConfig rc)))) := by
  refine ⟨?_, ?_, ?_, ?_, ?_, ?_⟩
  · intro rc cfg s h1 h2 h3
    have hex : extractAntigravityConfig rc = some cfg := by
      rw [extractAntigravityConfig, h1]
    rw [hex, resolveTrigger, h2, jsOrStr, if_pos h3]
  · intro rc s h1 h2 h3
    have hex : extractAntigravityConfig rc = none := by
      rw [extractAntigravityConfig, h1]
    rw [hex, resolveTrigger, h2]
    simp only [jsOrStr]
    rw [if_pos h3]
  · intro rc m h1 h2 h3
    have hex : extractAntigravityConfig rc = none := by
      rw [extractAntigravityConfig, h1]
    have hm := bodyTriggerMatch_ne_empty rc.body m h3
    rw [hex, resolveTrigger, h2, h3]
    simp only [jsOrStr]
    rw [if_pos hm]
  · intro rc h1 h2 h3
    have hex : extractAntigravityConfig rc = none := by
      rw [extractAntigravityConfig, h1]
    rw [hex, resolveTrigger, h2, h3]
    rfl
  · intro t
    refine ⟨?_, sanitizeTrigger_no_edge_hyphen t⟩
    intro c hc
    have hw := sanitizeTrigger_class t c hc
    rw [isWordDashChar] at hw
    simp only [Bool.or_eq_true, decide_eq_true_eq] at hw
    tauto
  · intro rc
    constructor
    · intro h
      rw [antigravityCommandFromRulesync]
      simp only [h, if_pos]
    · intro h
      rw [antigravityCommandFromRulesync]
      rw [if_neg h]
      exact ⟨_, rfl, rfl, rfl⟩

/-- Witness for C5: a command with an explicit `antigravity.trigger`
resolves and renames to its slug, and a command whose trigger sanitizes to
nothing fails with the validation error. -/
theorem C5_antigravity_command_trigger_witness :
    resolveTrigger
        ⟨⟨"d", none, some (.vobj [("trigger", .vstr "/go-fast")])⟩, "", "cmd.md"⟩
        (extractAntigravityConfig
          ⟨⟨"d", none, some (.vobj [("trigger", .vstr "/go-fast")])⟩, "", "cmd.md"⟩) =
      "/go-fast" ∧
    (∃ res, antigravityCommandFromRulesync
          ⟨⟨"d", none, some (.vobj [("trigger", .vstr "/go-fast")])⟩, "", "cmd.md"⟩ =
        .ok res ∧
      res.relativeFilePath =
        sanitizeTrigger (resolveTrigger
          ⟨⟨"d", none, some (.vobj [("trigger", .vstr "/go-fast")])⟩, "", "cmd.md"⟩
          (extractAntigravityConfig
            ⟨⟨"d", none, some (.vobj [("trigger", .vstr "/go-fast")])⟩, "", "cmd.md"⟩)) ++
          ".md" ∧
      res.frontmatter.trigger =
        some (resolveTrigger
          ⟨⟨"d", none, some (.vobj [("trigger", .vstr "/go-fast")])⟩, "", "cmd.md"⟩
          (extractAntigravityConfig
            ⟨⟨"d", none, some (.vobj [("trigger", .vstr "/go-fast")])⟩, "", "cmd.md"⟩))) ∧
    antigravityCommandFromRulesync ⟨⟨"d", some (.vstr "///"), none⟩, "", "x.md"⟩ =
      .error ("Invalid trigger: sanitization resulted in empty string from \"" ++
        resolveTrigger ⟨⟨"d", some (.vstr "///"), none⟩, "", "x.md"⟩
          (extractAntigravityConfig ⟨⟨"d", some (.vstr "///"), none⟩, "", "x.md"⟩) ++ "\"") :=
  ⟨C5_antigravity_command_trigger.1
      ⟨⟨"d", none, some (.vobj [("trigger", .vstr "/go-fast")])⟩, "", "cmd.md"⟩
      [("trigger", .vstr "/go-fast")] "/go-fast" rfl rfl (by decide),
   (C5_antigravity_command_trigger.2.2.2.2.2
      ⟨⟨"d", none, some (.vobj [("trigger", .vstr "/go-fast")])⟩, "", "cmd.md"⟩).2
      (by decide),
   (C5_antigravity_command_trigger.2.2.2.2.2
      ⟨⟨"d", some (.vstr "///"), none⟩, "", "x.md"⟩).1 (by decide)⟩

theorem convertCopilotHookEntry_none (isWindows : Bool) (d : HookDefinition)
    (h : truthyStr d.matcher = true ∨ d.type.getD "command" ≠ "command") :
    convertCopilotHookEntry isWindows d = none := by
  rcases h with h | h
  · simp only [convertCopilotHookEntry]
    rw [if_pos h]
  · by_cases hm : truthyStr d.matcher = true
    · simp only [convertCopilotHookEntry]
      rw [if_pos hm]
    · simp only [convertCopilotHookEntry]
      rw [if_neg hm, if_pos h]

/-- C6: exporting canonical hooks to Copilot drops every definition with a
matcher or of type `"prompt"`, translates `afterSubmitPrompt` to
`userPromptSubmitted`, and omits an event entirely when all of its
definitions are dropped. -/
theorem C6_copilot_hooks :
    (∀ (isWindows : Bool) (d : HookDefinition),
      truthyStr d.matcher = true ∨ d.type = some "prompt" →
      convertCopilotHookEntry isWindows d = none) ∧
    List.lookup "afterSubmitPrompt" CANONICAL_TO_COPILOT_EVENT_NAMES =
      some "userPromptSubmitted" ∧
    (∀ (isWindows : Bool) (defs : List HookDefinition),
      canonicalToCopilotHooks isWindows ⟨[("afterSubmitPrompt", defs)], none⟩ =
        if (defs.filterMap (convertCopilotHookEntry isWindows)).length > 0 then
          [("userPromptSubmitted", defs.filterMap (convertCopilotHookEntry isWindows))]
        else []) ∧
    (∀ (isWindows : Bool) (config : HooksConfig),
      (∀ ev defs, (ev, defs) ∈ effectiveCopilotHooks config →
        ∀ d ∈ defs, truthyStr d.matcher = true ∨ d.type.getD "command" ≠ "command") →
      canonicalToCopilotHooks isWindows config = []) := by
  refine ⟨?_, rfl, ?_, ?_⟩
  · intro isWindows d h
    apply convertCopilotHookEntry_none
    rcases h with h | h
    · exact Or.inl h
    · right
      rw [h]
      decide
  · intro isWindows defs
    simp only [canonicalToCopilotHooks, effectiveCopilotHooks, jsSpreadMerge, Option.getD_none,
      List.foldl_nil, List.filter_cons, List.filter_nil]
    rw [if_pos (by decide)]
    rw [List.foldl_cons, List.foldl_nil]
    by_cases hlen : (defs.filterMap (convertCopilotHookEntry isWindows)).length > 0
    · rw [if_pos hlen, if_pos hlen]
      rfl
    · rw [if_neg hlen, if_neg hlen]
  · intro isWindows config hexcl
    rw [canonicalToCopilotHooks]
    have haux : ∀ (L : List (String × List HookDefinition)),
        (∀ ev defs, (ev, defs) ∈ L → ∀ d ∈ defs,
          truthyStr d.matcher = true ∨ d.type.getD "command" ≠ "command") →
        ∀ acc : List (String × List CopilotHookEntry),
        L.foldl (fun copilot ev =>
          if (ev.2.filterMap (convertCopilotHookEntry isWindows)).length > 0 then
            objSet copilot ((List.lookup ev.1 CANONICAL_TO_COPILOT_EVENT_NAMES).getD ev.1)
              (ev.2.filterMap (convertCopilotHookEntry isWindows))
          else copilot) acc = acc := by
      intro L
      induction L with
      | nil => intro _ acc; rfl
      | cons ev L ih =>
        intro hL acc
        rw [List.foldl_cons]
        have hconv : ev.2.filterMap (convertCopilotHookEntry isWindows) = [] := by
          rw [List.filterMap_eq_nil_iff]
          intro d hd
          exact convertCopilotHookEntry_none isWindows d (hL ev.1 ev.2 (by simp) d hd)
        rw [hconv]
        simp only [List.length_nil, gt_iff_lt, lt_self_iff_false, if_false]
        exact ih (fun e ds hm => hL e ds (List.mem_cons_of_mem ev hm)) acc
    exact haux (effectiveCopilotHooks config) hexcl []

/-- Witness for C6: a configuration whose only definitions carry a matcher
or are of type prompt produces an empty Copilot hooks map, and a matcher
definition is dropped individually. -/
theorem C6_copilot_hooks_witness :
    convertCopilotHookEntry false
        ⟨some "command", some "lint.sh", none, some "Write", none, none, []⟩ = none ∧
    canonicalToCopilotHooks false
        ⟨[("preToolUse", [⟨some "command", some "lint.sh", none, some "Write", none, none, []⟩]),
          ("sessionStart", [⟨some "prompt", none, some "say hi", none, none, none, []⟩])],
          none⟩ = [] :=
  ⟨C6_copilot_hooks.1 false
      ⟨some "command", some "lint.sh", none, some "Write", none, none, []⟩
      (Or.inl (by decide)),
   C6_copilot_hooks.2.2.2 false
      ⟨[("preToolUse", [⟨some "command", some "lint.sh", none, some "Write", none, none, []⟩]),
        ("sessionStart", [⟨some "prompt", none, some "say hi", none, none, none, []⟩])],
        none⟩
      (by
        intro ev defs hm d hd
        simp only [effectiveCopilotHooks, jsSpreadMerge, Option.getD_none, List.foldl_nil,
          List.filter_cons, List.filter_nil] at hm
        rw [if_pos (by decide), if_pos (by decide)] at hm
        simp only [List.mem_cons, List.not_mem_nil, or_false, Prod.mk.injEq] at hm
        rcases hm with ⟨he, hdefs⟩ | ⟨he, hdefs⟩ <;>
          · subst hdefs
            simp only [List.mem_singleton] at hd
            subst hd
            first
              | exact Or.inl (by decide)
              | exact Or.inr (by decide))⟩

theorem setDedup_mem :
    ∀ (l seen : List String) (a : String), a ∈ setDedup seen l ↔ a ∈ l ∧ a ∉ seen := by
  intro l
  induction l with
  | nil => intro seen a; simp [setDedup]
  | cons x xs ih =>
    intro seen a
    rw [setDedup]
    by_cases hx : seen.contains x = true
    · rw [if_pos hx]
      replace hx : x ∈ seen := by simpa using hx
      rw [ih]
      constructor
      · rintro ⟨h1, h2⟩
        exact ⟨List.mem_cons_of_mem x h1, h2⟩
      · rintro ⟨h1, h2⟩
        rcases List.mem_cons.mp h1 with h | h
        · subst h
          exact absurd hx h2
        · exact ⟨h, h2⟩
    · rw [if_neg hx]
      replace hx : x ∉ seen := by simpa using hx
      constructor
      · intro h
        rcases List.mem_cons.mp h with h | h
        · subst h
          exact ⟨List.mem_cons_self a xs, hx⟩
        · rw [ih] at h
          refine ⟨List.mem_cons_of_mem x h.1, ?_⟩
          intro hc
          exact h.2 (List.mem_cons_of_mem x hc)
      · rintro ⟨h1, h2⟩
        rcases List.mem_cons.mp h1 with h | h
        · subst h
          exact List.mem_cons_self a _
        · by_cases hax : a = x
          · subst hax
            exact List.mem_cons_self a _
          · refine List.mem_cons_of_mem x ?_
            rw [ih]
            refine ⟨h, ?_⟩
            intro hc
            rcases List.mem_cons.mp hc with hc | hc
            · exact hax hc
            · exact h2 hc

theorem setDedup_nodup : ∀ l seen : List String, (setDedup seen l).Nodup := by
  intro l
  induction l with
  | nil => intro seen; simp [setDedup]
  | cons x xs ih =>
    intro seen
    rw [setDedup]
    by_cases hx : seen.contains x = true
    · rw [if_pos hx]
      exact ih seen
    · rw [if_neg hx]
      rw [List.nodup_cons]
      refine ⟨?_, ih (x :: seen)⟩
      intro hc
      rw [setDedup_mem] at hc
      exact hc.2 (List.mem_cons_self x seen)

/-- C9 counterexample: a `copilot` section whose `tools` field is the
empty string is treated as falsy by `normalizeTools`, so the single
string is not normalized to a one-element list and is not retained. -/
theorem C9_empty_string_tool_counterexample :
    normalizeTools (some (.str "")) = [] ∧
    normalizeTools (some (.str "")) ≠ [""] ∧
    (copilotSubagentFromRulesync ⟨"n", "d", some ⟨some (.str ""), []⟩⟩).tools =
      some (.arr ["agent/runSubagent"]) := by
  refine ⟨rfl, by decide, rfl⟩

/-- C9 (amended): the generated tools list always contains
`agent/runSubagent`, has no duplicates, and retains every user tool from
the `copilot` section, where a single non-empty string is normalized to a
one-element list and the empty string is treated as absent. -/
theorem C9_copilot_subagent_tools (rs : RulesyncSubagentFm) :
    (copilotSubagentFromRulesync rs).tools = some (.arr (copilotMergedTools rs)) ∧
    REQUIRED_TOOL ∈ copilotMergedTools rs ∧
    (copilotMergedTools rs).Nodup ∧
    (∀ t ∈ copilotUserTools rs, t ∈ copilotMergedTools rs) ∧
    (∀ s : String, s ≠ "" → normalizeTools (some (.str s)) = [s]) := by
  have hmem : REQUIRED_TOOL ∈ copilotMergedTools rs := by
    rw [copilotMergedTools, ensureRequiredTool, setDedup_mem]
    exact ⟨List.mem_cons_self _ _, List.not_mem_nil _⟩
  refine ⟨?_, hmem, ?_, ?_, ?_⟩
  · rw [copilotSubagentFromRulesync]
    simp only
    rw [if_pos (List.length_pos.mpr (List.ne_nil_of_mem hmem))]
  · exact setDedup_nodup _ []
  · intro t ht
    rw [copilotMergedTools, ensureRequiredTool, setDedup_mem]
    exact ⟨List.mem_cons_of_mem _ ht, List.not_mem_nil _⟩
  · intro s hs
    rw [normalizeTools, if_neg hs]

/-- Witness for C9 at a concrete subagent whose section carries a
duplicate of the required tool and a normal tool. -/
theorem C9_copilot_subagent_tools_witness :
    (copilotSubagentFromRulesync
        ⟨"n", "d", some ⟨some (.arr ["agent/runSubagent", "shell"]), []⟩⟩).tools =
      some (.arr (copilotMergedTools
        ⟨"n", "d", some ⟨some (.arr ["agent/runSubagent", "shell"]), []⟩⟩)) ∧
    REQUIRED_TOOL ∈ copilotMergedTools
      ⟨"n", "d", some ⟨some (.arr ["agent/runSubagent", "shell"]), []⟩⟩ ∧
    (copilotMergedTools
      ⟨"n", "d", some ⟨some (.arr ["agent/runSubagent", "shell"]), []⟩⟩).Nodup ∧
    normalizeTools (some (.str "one-tool")) = ["one-tool"] :=
  ⟨(C9_copilot_subagent_tools _).1,
   (C9_copilot_subagent_tools
      ⟨"n", "d", some ⟨some (.arr ["agent/runSubagent", "shell"]), []⟩⟩).2.1,
   (C9_copilot_subagent_tools
      ⟨"n", "d", some ⟨some (.arr ["agent/runSubagent", "shell"]), []⟩⟩).2.2.1,
   (C9_copilot_subagent_tools
      ⟨"n", "d", some ⟨some (.arr ["agent/runSubagent", "shell"]), []⟩⟩).2.2.2.2
      "one-tool" (by decide)⟩

theorem jsSpreadMerge_append {α : Type} :
    ∀ (b a : List (String × α)), (b.map Prod.fst).Nodup →
    (∀ kv ∈ b, ∀ kv' ∈ a, kv'.1 ≠ kv.1) →
    jsSpreadMerge a b = a ++ b := by
  intro b
  induction b with
  | nil => intro a _ _; simp [jsSpreadMerge]
  | cons kv b ih =>
    intro a hnd hfresh
    rw [List.map_cons, List.nodup_cons] at hnd
    obtain ⟨hk, hnd2⟩ := hnd
    rw [jsSpreadMerge, List.foldl_cons,
      objSet_fresh a kv.1 kv.2 (fun kv' hm => hfresh kv (List.mem_cons_self kv b) kv' hm)]
    have hrec := ih (a ++ [kv]) hnd2 ?fresh
    · rw [jsSpreadMerge] at hrec
      rw [hrec, List.append_assoc]
      rfl
    case fresh =>
      intro kv2 hm2 kv3 hm3
      rcases List.mem_append.mp hm3 with h | h
      · exact hfresh kv2 (List.mem_cons_of_mem kv hm2) kv3 h
      · simp only [List.mem_singleton] at h
        subst h
        intro hc
        exact hk (hc ▸ List.mem_map_of_mem Prod.fst hm2)

/-- C3 counterexample: the `mode` put into the `opencode` extension
section by `toRulesyncSubagent` is not restored by
`fromRulesyncSubagent`, which hardcodes `mode: "subagent"` after
spreading the section. -/
theorem C3_opencode_mode_counterexample :
    opencodeSubagentToRulesyncSection
        [("description", .vstr "d"), ("mode", .vstr "primary"), ("x", .vstr "1")] =
      [("mode", .vstr "primary"), ("x", .vstr "1")] ∧
    List.lookup "mode"
        (opencodeSubagentFromRulesync "n" "d"
          [("mode", Value.vstr "primary"), ("x", Value.vstr "1")]) =
      some (.vstr "subagent") ∧
    Value.vstr "subagent" ≠ Value.vstr "primary" := by
  refine ⟨rfl, rfl, by simp⟩

/-- C3 (amended): every field of an extension section other than the
adapter-owned `description`/`mode`/`name` keys is restored exactly by the
same tool's `fromRulesync` conversion: the cursor command section is
restored field-for-field, and the opencode subagent section is restored
except for `mode`, which `fromRulesyncSubagent` forces back to
`"subagent"`. -/
theorem C3_extension_roundtrip :
    (∀ (fm : List (String × Value)) (rsName rsDescription : String),
      (∀ k, k ≠ "description" → k ≠ "mode" → k ≠ "name" →
        List.lookup k (opencodeSubagentFromRulesync rsName rsDescription
          (opencodeSubagentToRulesyncSection fm)) =
        List.lookup k (opencodeSubagentToRulesyncSection fm)) ∧
      List.lookup "mode" (opencodeSubagentFromRulesync rsName rsDescription
        (opencodeSubagentToRulesyncSection fm)) = some (.vstr "subagent")) ∧
    (∀ (fm : List (String × Value)) (rsDescription : String),
      (fm.map Prod.fst).Nodup →
      cursorCommandToRulesyncSection
          (cursorCommandFromRulesync rsDescription (cursorCommandToRulesyncSection fm)) =
        cursorCommandToRulesyncSection fm) := by
  constructor
  · intro fm rsName rsDescription
    constructor
    · intro k h1 h2 h3
      rw [opencodeSubagentFromRulesync]
      by_cases hn : rsName ≠ ""
      · rw [if_pos hn, lookup_objSet_ne _ _ _ _ h3, lookup_objSet_ne _ _ _ _ h2,
          lookup_objSet_ne _ _ _ _ h1]
      · rw [if_neg hn, lookup_objSet_ne _ _ _ _ h2, lookup_objSet_ne _ _ _ _ h1]
    · rw [opencodeSubagentFromRulesync]
      by_cases hn : rsName ≠ ""
      · rw [if_pos hn, lookup_objSet_ne _ _ _ _ (by decide), lookup_objSet_self]
      · rw [if_neg hn, lookup_objSet_self]
  · intro fm rsDescription hnd
    have hsec : ∀ kv ∈ cursorCommandToRulesyncSection fm, kv.1 ≠ "description" := by
      intro kv hm
      rw [cursorCommandToRulesyncSection] at hm
      have hmf := List.of_mem_filter hm
      simpa using hmf
    have hsecnd : ((cursorCommandToRulesyncSection fm).map Prod.fst).Nodup := by
      rw [cursorCommandToRulesyncSection]
      exact hnd.sublist (List.Sublist.map Prod.fst (List.filter_sublist fm))
    have hfilter : List.filter (fun kv => kv.1 ≠ "description")
        (cursorCommandToRulesyncSection fm) = cursorCommandToRulesyncSection fm :=
      List.filter_eq_self.mpr (by intro kv hm; simpa using hsec kv hm)
    by_cases hd : rsDescription ≠ ""
    · have hbase : cursorCommandFromRulesync rsDescription (cursorCommandToRulesyncSection fm) =
          ("description", Value.vstr rsDescription) :: cursorCommandToRulesyncSection fm := by
        rw [cursorCommandFromRulesync]
        rw [if_pos hd]
        rw [jsSpreadMerge_append _ _ hsecnd ?fresh]
        · rfl
        case fresh =>
          intro kv hm kv2 hm2
          simp only [List.mem_singleton] at hm2
          subst hm2
          intro hc
          exact hsec kv hm (hc ▸ rfl)
      rw [hbase, cursorCommandToRulesyncSection, List.filter_cons_of_neg (by simp)]
      exact hfilter
    · have hbase : cursorCommandFromRulesync rsDescription (cursorCommandToRulesyncSection fm) =
          cursorCommandToRulesyncSection fm := by
        rw [cursorCommandFromRulesync]
        rw [if_neg hd]
        rw [jsSpreadMerge_append _ _ hsecnd (by intro kv _ kv2 hm2; simp at hm2)]
        rfl
      rw [hbase, cursorCommandToRulesyncSection]
      exact hfilter

/-- Witness for C3 at a concrete cursor command frontmatter and a
concrete opencode subagent frontmatter. -/
theorem C3_extension_roundtrip_witness :
    List.lookup "temperature"
        (opencodeSubagentFromRulesync "agent-a" "desc"
          (opencodeSubagentToRulesyncSection
            [("description", .vstr "old"), ("mode", .vstr "subagent"),
             ("temperature", .vnum 2)])) =
      List.lookup "temperature"
        (opencodeSubagentToRulesyncSection
          [("description", .vstr "old"), ("mode", .vstr "subagent"),
           ("temperature", .vnum 2)]) ∧
    cursorCommandToRulesyncSection
        (cursorCommandFromRulesync "desc"
          (cursorCommandToRulesyncSection
            [("description", .vstr "old"),
             ("handoffs", .varr [.vstr "h1"]), ("model", .vstr "fast")])) =
      cursorCommandToRulesyncSection
        [("description", .vstr "old"),
         ("handoffs", .varr [.vstr "h1"]), ("model", .vstr "fast")] :=
  ⟨(C3_extension_roundtrip.1
      [("description", .vstr "old"), ("mode", .vstr "subagent"), ("temperature", .vnum 2)]
      "agent-a" "desc").1 "temperature" (by decide) (by decide) (by decide),
   C3_extension_roundtrip.2
      [("description", .vstr "old"), ("handoffs", .varr [.vstr "h1"]), ("model", .vstr "fast")]
      "desc" (by simp)⟩

end Rulesync
